import Mathlib

/-!
Shallow embedding of the stock-consistency subsystem of the
DistribuidoraFunaz backend (src/server.js, third revision, which the
claims cite; the earlier revisions differ only in fields that no claim
touches).

Modelling conventions, stated once here:

* The remote datastore is a record `DB` of lists of rows.  Row order in a
  table only matters where the code itself iterates over rows.
* Stock quantities and timestamps are `Int`; money amounts are `Rat`
  (every numeric value the claims mention is exactly representable, so
  the binary floating point of the runtime is faithful on them).
  `Number(x) || 0` applied to an already-numeric non-NaN value is the
  identity and is dropped.
* A row lookup `.eq(col, v).single()` is `List.find?`; `.update().eq()`
  is a `List.map` guarded by the key; a keyed upsert replaces the row
  with that primary key (realised as remove-then-append, which induces
  the same keyed table).
* Wall-clock reads (`Date.now()`, `new Date().toISOString()`) become an
  explicit `now : Int` argument.  The `fecha` timestamp column of
  movement rows and the `revisado` flag are omitted: no claim mentions
  them.  Human-readable log/reason strings are abbreviated where the
  code only displays them.
* Dates stored in debt items are `Option Int`: `none` covers both a
  missing and an unparseable date string, which the code treats alike.
  The three-month cutoff `fechaLimite` (computed in the code by calendar
  arithmetic from the current time) is passed in as an argument.
-/

/-- A row of the `productos` table. -/
structure Product where
  id : Nat
  nombre : String
  precio : Rat
  stock : Int
deriving DecidableEq

/-- A row of the `monitor_snapshot` table: the stock value last confirmed
for a product. -/
structure SnapRow where
  id : Nat
  stock : Int
deriving DecidableEq

/-- A row of the append-only `historial_stock` table. -/
structure Mov where
  producto_id : Nat
  producto_nombre : String
  cantidad_cambio : Int
  stock_anterior : Int
  stock_nuevo : Int
  tipo_movimiento : String
  referencia_id : String
  razon : Option String
deriving DecidableEq

/-- A denormalised line item embedded in a stored order. -/
structure ItemLine where
  id : Nat
  nombre : String
  cantidad : Int
  precio_unitario : Rat
  subtotal : Rat
deriving DecidableEq

/-- A row of the `pedidos` table. -/
structure Pedido where
  id : String
  user : String
  fecha : Option Int
  items : List ItemLine
  total : Rat
  user_id : Option String
  nombre_negocio : Option String
  estado : Option String
deriving DecidableEq

/-- An entry of the `items` array of a customer debt-ledger document. -/
structure DebtItem where
  id : String
  type : String
  amount : Rat
  paid : Rat
  date : Option Int
  notes : String
  color : String
deriving DecidableEq

/-- An entry of the `history` array of a customer debt-ledger document:
a before-image snapshot plus a display message. -/
structure HistEntry where
  timestamp : Int
  items : List DebtItem
  action : String
  type : String
deriving DecidableEq

/-- The JSON document stored in the `data` column of `clients_v2`. -/
structure ClientData where
  items : List DebtItem
  history : List HistEntry
deriving DecidableEq

/-- A row of the `clients_v2` table. -/
structure Cliente where
  id : Nat
  user_id : String
  data : ClientData
deriving DecidableEq

/-- The whole datastore state touched by the subsystem. -/
structure DB where
  productos : List Product
  snapshot : List SnapRow
  historial : List Mov
  pedidos : List Pedido
  clientes : List Cliente
deriving DecidableEq

/-- Lookup in the snapshot table as the monitor sees it: the code folds
the rows into a map with `forEach`, so a later row with the same id
overwrites an earlier one. -/
def snapLookup : List SnapRow → Nat → Option Int
  | [], _ => none
  | r :: rest, pid =>
    match snapLookup rest pid with
    | some v => some v
    | none => if r.id == pid then some r.stock else none

/-- Keyed upsert into `monitor_snapshot` (primary key `id`): the row with
that id is replaced, or appended when absent.  Realised as
remove-then-append, which yields the same keyed table. -/
def upsertSnap (rows : List SnapRow) (pid : Nat) (s : Int) : List SnapRow :=
  rows.filter (fun r => !(r.id == pid)) ++ [⟨pid, s⟩]

/-- `.update({ stock }).eq('id', pid)` on the `productos` table. -/
def updateStock (db : DB) (pid : Nat) (s : Int) : DB :=
  { db with
      productos := db.productos.map
        (fun p => if p.id == pid then { p with stock := s } else p) }

/-- `registrarMovimiento` (server.js:1289): inserts one row into
`historial_stock` and upserts the `monitor_snapshot` row of the product
to the new stock value. -/
def registrarMovimiento (db : DB) (prodId : Nat) (nombre : String)
    (cambio stockAnt stockNue : Int) (tipo ref : String)
    (razonDetallada : Option String) : DB :=
  { db with
      historial := db.historial ++
        [⟨prodId, nombre, cambio, stockAnt, stockNue, tipo, ref, razonDetallada⟩],
      snapshot := upsertSnap db.snapshot prodId stockNue }

/-- The drift-adjustment movement the monitor inserts for a product whose
live stock differs from the snapshot value `foto`. -/
def movDrift (p : Product) (foto : Int) : Mov :=
  ⟨p.id, p.nombre, p.stock - foto, foto, p.stock, "ajuste db", "MONITOR",
    some "Ajuste automático por discrepancia en DB"⟩

/-- The compare loop of `ejecutarLogicaMonitor` (server.js:1382): walks
the product rows in order against the snapshot map, producing the
inserted drift movements, the adjustment count, and the pending snapshot
upserts (changed or previously untracked products). -/
def monitorCompara (snapMap : Nat → Option Int) :
    List Product → List Mov × Nat × List SnapRow
  | [] => ([], 0, [])
  | p :: rest =>
    let r := monitorCompara snapMap rest
    match snapMap p.id with
    | none => (r.1, r.2.1, ⟨p.id, p.stock⟩ :: r.2.2)
    | some foto =>
      if p.stock = foto then r
      else (movDrift p foto :: r.1, r.2.1 + 1, ⟨p.id, p.stock⟩ :: r.2.2)

/-- `ejecutarLogicaMonitor` (server.js:1316): reads every product row and
every snapshot row, logs a drift movement for each tracked product whose
live stock changed, then upserts the snapshot rows (the code batches the
upserts, which has the same keyed effect as applying them in order).
Returns the new state and the number of adjustments logged.  An empty
product table short-circuits to zero. -/
def ejecutarLogicaMonitor (db : DB) : DB × Nat :=
  if db.productos.isEmpty then (db, 0)
  else
    let r := monitorCompara (fun i => snapLookup db.snapshot i) db.productos
    ({ db with
        historial := db.historial ++ r.1,
        snapshot := r.2.2.foldl (fun s u => upsertSnap s u.id u.stock) db.snapshot },
      r.2.1)

/-- A line of the request body of `POST /api/guardar-pedidos`: the item
id, the requested quantity, and the two optional price-override fields
consulted in order before the catalog price. -/
structure ReqItem where
  id : Nat
  cantidad : Int
  precio : Option Rat
  precio_unitario : Option Rat
deriving DecidableEq

/-- The not-found error of the sale loop (server.js:1683). -/
def ventaMsgNotFound (pid : Nat) : String :=
  "Producto con ID " ++ toString pid ++ " no encontrado"

/-- The invalid-quantity error of the sale loop (server.js:1688). -/
def ventaMsgCantidad (pid : Nat) : String :=
  "Cantidad inválida para producto " ++ toString pid

/-- The item loop of `POST /api/guardar-pedidos` (server.js:1677): for
each requested item, look the product up (abort with an error when
missing or when the quantity is not positive), resolve the unit price,
decrement the stock row and record a `VENTA` movement.  The state is
threaded through errors because aborting does not undo earlier
decrements. -/
def procesaItems (oid : String) (db : DB) :
    List ReqItem → DB × Except String (List ItemLine × Rat)
  | [] => (db, .ok ([], 0))
  | it :: rest =>
    match db.productos.find? (fun p => p.id == it.id) with
    | none => (db, .error (ventaMsgNotFound it.id))
    | some prod =>
      if it.cantidad ≤ 0 then (db, .error (ventaMsgCantidad it.id))
      else
        let stockAnterior := prod.stock
        let precioUnitario := (it.precio.orElse (fun _ => it.precio_unitario)).getD prod.precio
        let subtotal := (it.cantidad : Rat) * precioUnitario
        let linea : ItemLine := ⟨it.id, prod.nombre, it.cantidad, precioUnitario, subtotal⟩
        let newStock := stockAnterior - it.cantidad
        let db1 := registrarMovimiento (updateStock db it.id newStock)
          it.id prod.nombre (-it.cantidad) stockAnterior newStock "VENTA" oid none
        match procesaItems oid db1 rest with
        | (db2, .ok (lineas, tot)) => (db2, .ok (linea :: lineas, subtotal + tot))
        | (db2, .error e) => (db2, .error e)

/-- `POST /api/guardar-pedidos` (server.js:1656): validates the request,
runs the item loop, and on success inserts the priced order row.  The
order id is the wall-clock timestamp rendered as a string and the stored
date is shifted back three hours. -/
def guardarPedidos (db : DB) (pedidoItems : List ReqItem) (usuario : String)
    (userId nombreNegocio : Option String) (now : Int) :
    DB × Except String Pedido :=
  if pedidoItems.isEmpty then (db, .error "Pedido inválido")
  else
    let oid := toString now
    match procesaItems oid db pedidoItems with
    | (db1, .error e) => (db1, .error e)
    | (db1, .ok (lineas, total)) =>
      if lineas.isEmpty then (db1, .error "No hay items válidos para el pedido")
      else
        let pedido : Pedido :=
          ⟨oid, usuario, some (now - 3 * 60 * 60 * 1000), lineas, total,
            userId, nombreNegocio, none⟩
        ({ db1 with pedidos := db1.pedidos ++ [pedido] }, .ok pedido)

/-- An entry of the `stockUpdates` array of `PUT /api/actualizar-pedido`. -/
structure StockUpdate where
  id : Nat
  cantidad : Int
deriving DecidableEq

/-- The stock loop of `PUT /api/actualizar-pedido/:id` (server.js:1535):
each entry is an independent decrement of the product row, recorded as a
`MODIF_PEDIDO` movement; a missing product is skipped. -/
def aplicaStockUpdates (oid razon : String) (db : DB) : List StockUpdate → DB
  | [] => db
  | u :: rest =>
    let db' :=
      match db.productos.find? (fun p => p.id == u.id) with
      | none => db
      | some prod =>
        let stockAnterior := prod.stock
        let newStock := stockAnterior - u.cantidad
        registrarMovimiento (updateStock db u.id newStock)
          u.id prod.nombre (-u.cantidad) stockAnterior newStock "MODIF_PEDIDO" oid (some razon)
    aplicaStockUpdates oid razon db' rest

/-- `PUT /api/actualizar-pedido/:id` (server.js:1511): applies the
caller-computed incremental stock updates, then overwrites the items and
recomputed total of the order row.  The detailed reason string is
abbreviated (display only), and the enqueued debt-ledger task of a
fulfilled order is modelled separately (it writes only `clients_v2`). -/
def actualizarPedido (db : DB) (pedidoId : String) (items : List ItemLine)
    (stockUpdates : List StockUpdate) : DB × Except String Unit :=
  if items.isEmpty then (db, .error "Items inválidos")
  else
    let razon := "Modif. Pedido #" ++ pedidoId
    let db1 := aplicaStockUpdates pedidoId razon db stockUpdates
    let total := items.foldl (fun s it => s + (it.cantidad : Rat) * it.precio_unitario) 0
    let peds := db1.pedidos.map
      (fun p => if p.id == pedidoId then { p with items := items, total := total } else p)
    ({ db1 with pedidos := peds }, .ok ())

/-- The restore loop of `DELETE /api/eliminar-pedido/:id`
(server.js:1767): for every line item of the order whose product still
exists, increment the stock row by the line quantity and record an
`ELIMINAR_PEDIDO` movement. -/
def restauraItems (oid razon : String) (db : DB) : List ItemLine → DB
  | [] => db
  | it :: rest =>
    let db' :=
      match db.productos.find? (fun p => p.id == it.id) with
      | none => db
      | some prod =>
        let stockAnterior := prod.stock
        let newStock := stockAnterior + it.cantidad
        registrarMovimiento (updateStock db it.id newStock)
          it.id prod.nombre it.cantidad stockAnterior newStock "ELIMINAR_PEDIDO" oid (some razon)
    restauraItems oid razon db' rest

/-- `DELETE /api/eliminar-pedido/:id` (server.js:1754): a missing order
is an error; otherwise the stock of every line item is restored unless
the order was received (`recibido`), and the order row is deleted.  The
best-effort removal of the PDF artifact only touches object storage. -/
def eliminarPedido (db : DB) (oid : String) (recibido : Bool) :
    DB × Except String Unit :=
  match db.pedidos.find? (fun p => p.id == oid) with
  | none => (db, .error "Pedido no encontrado")
  | some pedido =>
    let razon := "Restauración por eliminación de Pedido #" ++ oid ++
      " (" ++ pedido.user ++ ")"
    let db1 := if recibido then db else restauraItems oid razon db pedido.items
    ({ db1 with pedidos := db1.pedidos.filter (fun p => !(p.id == oid)) }, .ok ())

/-- JS `Math.round` on an exact rational: the nearest integer, halves
rounded toward positive infinity. -/
def mathRound (q : Rat) : Int := ⌊q + 1 / 2⌋

/-- The keep predicate of the debt-ledger cleanup zone (server.js:2262):
an entry survives the prune when it is not a debt, lacks a parseable
date, is dated strictly after the three-month cutoff, or still has a
positive outstanding balance. -/
def pruneKeep (lim : Int) (it : DebtItem) : Bool :=
  if it.type == "debt" then
    match it.date with
    | none => true
    | some d => decide (lim < d) || decide (0 < it.amount - it.paid)
  else true

/-- The cleanup zone itself: filter the ledger items by `pruneKeep`. -/
def pruneItems (lim : Int) (items : List DebtItem) : List DebtItem :=
  items.filter (pruneKeep lim)

/-- In-place mutation of the first ledger item with the given id
(`items[indexYaExiste].amount = ...` after a `findIndex` on the id). -/
def replaceDebt : List DebtItem → String → (DebtItem → DebtItem) → List DebtItem
  | [], _, _ => []
  | x :: t, pid, f => if x.id == pid then f x :: t else x :: replaceDebt t pid f

/-- The 500-entry cap on the history list: after the `unshift`, one
oldest entry is popped when the length exceeds 500. -/
def capHistory (h : List HistEntry) : List HistEntry :=
  if 500 < h.length then h.dropLast else h

/-- The debt-ledger task of `PUT /api/actualizar-estado-pedido/:id`
(server.js:2243): prune stale entries, then find-or-create the line for
this order id.  A new line is created with the rounded order total; an
existing line whose amount differs is updated in place (and its note
refreshed when the order carries a business name); in either case one
history entry holding the pre-change snapshot is prepended and capped.
When the amount is unchanged nothing is written back, so the document
keeps even the pruned items.  Display strings are abbreviated. -/
def sincronizarCobranza (data : ClientData) (pedido : Pedido)
    (fechaLimite now : Int) : ClientData :=
  let items0 := pruneItems fechaLimite data.items
  let montoNuevo := mathRound pedido.total
  let fecha := pedido.fecha.getD now
  match items0.find? (fun i => i.id == pedido.id) with
  | none =>
    let nuevo : DebtItem :=
      ⟨pedido.id, "debt", (montoNuevo : Rat), 0, some fecha,
        pedido.nombre_negocio.getD "", "orange"⟩
    let accion := "📦 Nuevo Pedido #" ++ pedido.id
    ⟨nuevo :: items0, capHistory (⟨now, items0, accion, "debt"⟩ :: data.history)⟩
  | some it =>
    if it.amount = (montoNuevo : Rat) then data
    else
      let items1 := replaceDebt items0 pedido.id
        (fun i => { i with
            amount := (montoNuevo : Rat),
            notes := pedido.nombre_negocio.getD i.notes })
      let accion := "🔄 Update Pedido #" ++ pedido.id
      ⟨items1, capHistory (⟨now, items0, accion, "edit"⟩ :: data.history)⟩

/-- `PUT /api/actualizar-estado-pedido/:id` (server.js:2220): set the
order status; when the new status is `Preparado` and the order carries a
customer id, run the debt-ledger task against that customer's document.
The task goes through the per-customer queue in the code; its net effect
on the stored document is the synchronous application modelled here. -/
def actualizarEstadoPedido (db : DB) (oid estado : String)
    (fechaLimite now : Int) : DB × Except String Unit :=
  match db.pedidos.find? (fun p => p.id == oid) with
  | none => (db, .error "Pedido no encontrado")
  | some pedido0 =>
    let pedido := { pedido0 with estado := some estado }
    let peds := db.pedidos.map
      (fun p => if p.id == oid then { p with estado := some estado } else p)
    let db1 := { db with pedidos := peds }
    if estado == "Preparado" then
      match pedido.user_id with
      | none => (db1, .ok ())
      | some uid =>
        match db1.clientes.find? (fun c => c.user_id == uid) with
        | none => (db1, .ok ())
        | some cliente =>
          let cls := db1.clientes.map
            (fun c => if c.id == cliente.id then
                { c with data := sincronizarCobranza c.data pedido fechaLimite now }
              else c)
          ({ db1 with clientes := cls }, .ok ())
    else (db1, .ok ())

/-- One task of the per-customer queue (`runInQueue`, server.js:2208): a
pending promise chain segment.  `tid` identifies the task, `len` is the
number of event-loop turns (awaited datastore calls) it takes before it
settles, and `fails` records whether it settles by rejection — the
`.catch` absorbs the rejection, so `fails` has no effect on scheduling,
which is exactly the non-blocking behaviour under proof. -/
structure QTask where
  tid : Nat
  len : Nat
  fails : Bool
deriving DecidableEq

/-- `userQueues`: the map from customer key to its pending FIFO chain. -/
def Qstate := Nat → List QTask

/-- One event-loop turn granted to the chain of key `k`: the head task
runs one step and emits an observable event `(k, tid)`, or is popped
once it has settled.  Which key gets the next turn is the schedule's
choice, modelling which pending datastore call returns first. -/
def stepQueue (s : Qstate) (k : Nat) : Qstate × Option (Nat × Nat) :=
  match s k with
  | [] => (s, none)
  | t :: rest =>
    if t.len = 0 then (fun j => if j = k then rest else s j, none)
    else ((fun j => if j = k then ⟨t.tid, t.len - 1, t.fails⟩ :: rest else s j),
      some (k, t.tid))

/-- Run the queue system under a schedule (the sequence of keys whose
pending call resolves next), collecting the final state and the trace of
emitted events. -/
def runQueue (s : Qstate) : List Nat → Qstate × List (Nat × Nat)
  | [] => (s, [])
  | c :: cs =>
    let st := stepQueue s c
    let r := runQueue st.1 cs
    (r.1, st.2.toList ++ r.2)

/-- The events of one key, in trace order. -/
def traceK (k : Nat) (tr : List (Nat × Nat)) : List Nat :=
  (tr.filter (fun e => e.1 == k)).map (fun e => e.2)

/-- The full emission sequence of a chain run to completion: each task
contributes one event per step, strictly in queue order. -/
def fullEmits (ts : List QTask) : List Nat :=
  (ts.map (fun t => List.replicate t.len t.tid)).flatten

/-- Remaining work of a chain: total steps plus one settle per task. -/
def phiQ (ts : List QTask) : Nat :=
  (ts.map (fun t => t.len + 1)).sum

/-! Basic component lemmas about the state helpers. -/

@[simp] lemma registrarMovimiento_productos (db : DB) (pid : Nat) (n : String)
    (c a s : Int) (t r : String) (z : Option String) :
    (registrarMovimiento db pid n c a s t r z).productos = db.productos := rfl

@[simp] lemma registrarMovimiento_pedidos (db : DB) (pid : Nat) (n : String)
    (c a s : Int) (t r : String) (z : Option String) :
    (registrarMovimiento db pid n c a s t r z).pedidos = db.pedidos := rfl

@[simp] lemma registrarMovimiento_historial (db : DB) (pid : Nat) (n : String)
    (c a s : Int) (t r : String) (z : Option String) :
    (registrarMovimiento db pid n c a s t r z).historial =
      db.historial ++ [⟨pid, n, c, a, s, t, r, z⟩] := rfl

@[simp] lemma registrarMovimiento_snapshot (db : DB) (pid : Nat) (n : String)
    (c a s : Int) (t r : String) (z : Option String) :
    (registrarMovimiento db pid n c a s t r z).snapshot =
      upsertSnap db.snapshot pid s := rfl

@[simp] lemma updateStock_historial (db : DB) (pid : Nat) (s : Int) :
    (updateStock db pid s).historial = db.historial := rfl

@[simp] lemma updateStock_pedidos (db : DB) (pid : Nat) (s : Int) :
    (updateStock db pid s).pedidos = db.pedidos := rfl

@[simp] lemma updateStock_snapshot (db : DB) (pid : Nat) (s : Int) :
    (updateStock db pid s).snapshot = db.snapshot := rfl

lemma updateStock_productos (db : DB) (pid : Nat) (s : Int) :
    (updateStock db pid s).productos =
      db.productos.map (fun p => if p.id == pid then { p with stock := s } else p) := rfl

/-! Lemmas about the snapshot table. -/

lemma snapLookup_append_single_self (l : List SnapRow) (pid : Nat) (s : Int) :
    snapLookup (l ++ [⟨pid, s⟩]) pid = some s := by
  induction l with
  | nil => simp [snapLookup]
  | cons r t ih =>
    show snapLookup (r :: (t ++ [⟨pid, s⟩])) pid = some s
    simp [snapLookup, ih]

lemma snapLookup_append_single_other (l : List SnapRow) (pid q : Nat) (s : Int)
    (h : q ≠ pid) : snapLookup (l ++ [⟨pid, s⟩]) q = snapLookup l q := by
  induction l with
  | nil => simp [snapLookup, Ne.symm h]
  | cons r t ih =>
    show snapLookup (r :: (t ++ [⟨pid, s⟩])) q = snapLookup (r :: t) q
    simp only [snapLookup, ih]

lemma snapLookup_filter_ne (l : List SnapRow) (pid q : Nat) (h : q ≠ pid) :
    snapLookup (l.filter (fun r => !(r.id == pid))) q = snapLookup l q := by
  induction l with
  | nil => rfl
  | cons r t ih =>
    by_cases hr : r.id = pid
    · cases hsl : snapLookup t q <;>
        simp [List.filter_cons, hr, snapLookup, ih, hsl, Ne.symm h]
    · simp [List.filter_cons, hr, snapLookup, ih]

lemma upsertSnap_lookup_self (rows : List SnapRow) (pid : Nat) (s : Int) :
    snapLookup (upsertSnap rows pid s) pid = some s := by
  unfold upsertSnap; exact snapLookup_append_single_self _ _ _

lemma upsertSnap_lookup_other (rows : List SnapRow) (pid q : Nat) (s : Int)
    (h : q ≠ pid) : snapLookup (upsertSnap rows pid s) q = snapLookup rows q := by
  unfold upsertSnap
  rw [snapLookup_append_single_other _ _ _ _ h, snapLookup_filter_ne _ _ _ h]

lemma foldl_upsert_not_mem (upds : List SnapRow) (snap : List SnapRow) (x : Nat)
    (h : ∀ u ∈ upds, u.id ≠ x) :
    snapLookup (upds.foldl (fun s u => upsertSnap s u.id u.stock) snap) x =
      snapLookup snap x := by
  induction upds generalizing snap with
  | nil => rfl
  | cons u t ih =>
    rw [List.foldl_cons, ih _ (fun v hv => h v (List.mem_cons_of_mem _ hv))]
    exact upsertSnap_lookup_other _ _ _ _ (fun e => h u (List.mem_cons_self _ _) e.symm)

lemma foldl_upsert_mem (upds : List SnapRow) (snap : List SnapRow) (u0 : SnapRow)
    (hmem : u0 ∈ upds) (hnd : (upds.map SnapRow.id).Nodup) :
    snapLookup (upds.foldl (fun s u => upsertSnap s u.id u.stock) snap) u0.id =
      some u0.stock := by
  induction upds generalizing snap with
  | nil => cases hmem
  | cons u t ih =>
    rw [List.map_cons, List.nodup_cons] at hnd
    rcases List.mem_cons.mp hmem with h0 | h0
    · subst h0
      rw [List.foldl_cons, foldl_upsert_not_mem]
      · exact upsertSnap_lookup_self _ _ _
      · intro v hv e
        exact hnd.1 (e ▸ List.mem_map_of_mem SnapRow.id hv)
    · rw [List.foldl_cons]
      exact ih _ h0 hnd.2

/-! Lemmas about the monitor compare loop. -/

lemma monitorCompara_cons_none (m : Nat → Option Int) (p : Product) (t : List Product)
    (hm : m p.id = none) :
    monitorCompara m (p :: t) =
      ((monitorCompara m t).1, (monitorCompara m t).2.1,
        ⟨p.id, p.stock⟩ :: (monitorCompara m t).2.2) := by
  simp [monitorCompara, hm]

lemma monitorCompara_cons_eq (m : Nat → Option Int) (p : Product) (t : List Product)
    (hm : m p.id = some p.stock) :
    monitorCompara m (p :: t) = monitorCompara m t := by
  simp [monitorCompara, hm]

lemma monitorCompara_cons_ne (m : Nat → Option Int) (p : Product) (t : List Product)
    (foto : Int) (hm : m p.id = some foto) (hs : p.stock ≠ foto) :
    monitorCompara m (p :: t) =
      (movDrift p foto :: (monitorCompara m t).1, (monitorCompara m t).2.1 + 1,
        ⟨p.id, p.stock⟩ :: (monitorCompara m t).2.2) := by
  simp [monitorCompara, hm, hs]

lemma monitorCompara_upds_mem (m : Nat → Option Int) (ps : List Product) (u : SnapRow)
    (hu : u ∈ (monitorCompara m ps).2.2) :
    ∃ q ∈ ps, u = ⟨q.id, q.stock⟩ ∧ m q.id ≠ some q.stock := by
  induction ps with
  | nil => cases hu
  | cons p t ih =>
    have step : u ∈ (monitorCompara m t).2.2 → ∃ q ∈ p :: t,
        u = (⟨q.id, q.stock⟩ : SnapRow) ∧ m q.id ≠ some q.stock := by
      intro hv
      obtain ⟨q, hq, e, hne⟩ := ih hv
      exact ⟨q, List.mem_cons_of_mem _ hq, e, hne⟩
    cases hm : m p.id with
    | none =>
      rw [monitorCompara_cons_none m p t hm] at hu
      rcases List.mem_cons.mp hu with h | h
      · exact ⟨p, List.mem_cons_self _ _, h, by simp [hm]⟩
      · exact step h
    | some foto =>
      by_cases hs : p.stock = foto
      · subst hs
        rw [monitorCompara_cons_eq m p t hm] at hu
        exact step hu
      · rw [monitorCompara_cons_ne m p t foto hm hs] at hu
        rcases List.mem_cons.mp hu with h | h
        · refine ⟨p, List.mem_cons_self _ _, h, ?_⟩
          rw [hm]
          exact fun e => hs (Option.some.inj e).symm
        · exact step h

lemma monitorCompara_upds_mem_of (m : Nat → Option Int) (ps : List Product)
    (p : Product) (hp : p ∈ ps) (hne : m p.id ≠ some p.stock) :
    (⟨p.id, p.stock⟩ : SnapRow) ∈ (monitorCompara m ps).2.2 := by
  induction ps with
  | nil => cases hp
  | cons q t ih =>
    rcases List.mem_cons.mp hp with h | h
    · subst h
      cases hm : m p.id with
      | none => rw [monitorCompara_cons_none m p t hm]; exact List.mem_cons_self _ _
      | some foto =>
        have hs : p.stock ≠ foto := fun e => hne (by rw [hm, e])
        rw [monitorCompara_cons_ne m p t foto hm hs]
        exact List.mem_cons_self _ _
    · have hin := ih h
      cases hm : m q.id with
      | none => rw [monitorCompara_cons_none m q t hm]; exact List.mem_cons_of_mem _ hin
      | some foto =>
        by_cases hs : q.stock = foto
        · subst hs; rw [monitorCompara_cons_eq m q t hm]; exact hin
        · rw [monitorCompara_cons_ne m q t foto hm hs]
          exact List.mem_cons_of_mem _ hin

lemma monitorCompara_movs_mem (m : Nat → Option Int) (ps : List Product) (mv : Mov)
    (hmv : mv ∈ (monitorCompara m ps).1) :
    ∃ q ∈ ps, ∃ foto, m q.id = some foto ∧ q.stock ≠ foto ∧ mv = movDrift q foto := by
  induction ps with
  | nil => cases hmv
  | cons p t ih =>
    have step : mv ∈ (monitorCompara m t).1 → ∃ q ∈ p :: t, ∃ foto,
        m q.id = some foto ∧ q.stock ≠ foto ∧ mv = movDrift q foto := by
      intro hv
      obtain ⟨q, hq, foto, h1, h2, h3⟩ := ih hv
      exact ⟨q, List.mem_cons_of_mem _ hq, foto, h1, h2, h3⟩
    cases hm : m p.id with
    | none =>
      rw [monitorCompara_cons_none m p t hm] at hmv
      exact step hmv
    | some foto =>
      by_cases hs : p.stock = foto
      · subst hs
        rw [monitorCompara_cons_eq m p t hm] at hmv
        exact step hmv
      · rw [monitorCompara_cons_ne m p t foto hm hs] at hmv
        rcases List.mem_cons.mp hmv with h | h
        · exact ⟨p, List.mem_cons_self _ _, foto, hm, hs, h⟩
        · exact step h

lemma monitorCompara_upds_sublist (m : Nat → Option Int) (ps : List Product) :
    ((monitorCompara m ps).2.2.map SnapRow.id).Sublist (ps.map Product.id) := by
  induction ps with
  | nil => simp [monitorCompara]
  | cons p t ih =>
    cases hm : m p.id with
    | none =>
      rw [monitorCompara_cons_none m p t hm]
      exact ih.cons₂ p.id
    | some foto =>
      by_cases hs : p.stock = foto
      · subst hs
        rw [monitorCompara_cons_eq m p t hm, List.map_cons]
        exact ih.cons p.id
      · rw [monitorCompara_cons_ne m p t foto hm hs]
        exact ih.cons₂ p.id

lemma monitorCompara_no_change (m : Nat → Option Int) (ps : List Product)
    (h : ∀ p ∈ ps, m p.id = some p.stock) : monitorCompara m ps = ([], 0, []) := by
  induction ps with
  | nil => rfl
  | cons p t ih =>
    rw [monitorCompara_cons_eq m p t (h p (List.mem_cons_self _ _)),
      ih (fun q hq => h q (List.mem_cons_of_mem _ hq))]

lemma monitorCompara_filter_drift (m : Nat → Option Int) (ps : List Product)
    (p : Product) (s : Int) (hnd : (ps.map Product.id).Nodup) (hp : p ∈ ps)
    (hs : m p.id = some s) (hne : p.stock ≠ s) :
    (monitorCompara m ps).1.filter (fun mv => mv.producto_id == p.id) =
      [movDrift p s] := by
  induction ps with
  | nil => cases hp
  | cons q t ih =>
    rw [List.map_cons, List.nodup_cons] at hnd
    rcases List.mem_cons.mp hp with h | h
    · subst h
      rw [monitorCompara_cons_ne m p t s hs hne, List.filter_cons]
      have hself : ((movDrift p s).producto_id == p.id) = true := by simp [movDrift]
      rw [hself, if_pos rfl]
      have hrest : (monitorCompara m t).1.filter (fun mv => mv.producto_id == p.id) = [] := by
        rw [List.filter_eq_nil_iff]
        intro mv hmv
        obtain ⟨q, hq, foto, _, _, h3⟩ := monitorCompara_movs_mem m t mv hmv
        have hpid : mv.producto_id = q.id := by rw [h3]; rfl
        simp only [hpid, beq_iff_eq]
        intro e
        exact hnd.1 (e ▸ List.mem_map_of_mem Product.id hq)
      rw [hrest]
    · have hqid : q.id ≠ p.id := by
        intro e
        exact hnd.1 (e ▸ List.mem_map_of_mem Product.id h)
      cases hm : m q.id with
      | none =>
        rw [monitorCompara_cons_none m q t hm]
        exact ih hnd.2 h
      | some foto =>
        by_cases hqs : q.stock = foto
        · subst hqs
          rw [monitorCompara_cons_eq m q t hm]
          exact ih hnd.2 h
        · rw [monitorCompara_cons_ne m q t foto hm hqs, List.filter_cons]
          have hno : ((movDrift q foto).producto_id == p.id) = false := by
            simp [movDrift, hqid]
          rw [hno]
          simp only [Bool.false_eq_true, if_false]
          exact ih hnd.2 h

/-! The reconciliation pass at the level of the whole state. -/

lemma ejecutarLogicaMonitor_productos (db : DB) :
    (ejecutarLogicaMonitor db).1.productos = db.productos := by
  unfold ejecutarLogicaMonitor
  split <;> rfl

lemma ejecutarLogicaMonitor_eq (db : DB) (h : db.productos ≠ []) :
    ejecutarLogicaMonitor db =
      ({ db with
          historial := db.historial ++
            (monitorCompara (fun i => snapLookup db.snapshot i) db.productos).1,
          snapshot :=
            (monitorCompara (fun i => snapLookup db.snapshot i) db.productos).2.2.foldl
              (fun s u => upsertSnap s u.id u.stock) db.snapshot },
        (monitorCompara (fun i => snapLookup db.snapshot i) db.productos).2.1) := by
  unfold ejecutarLogicaMonitor
  rw [if_neg (by simpa using h)]

lemma monitor_snapshot_post (db : DB) (hnd : (db.productos.map Product.id).Nodup)
    (p : Product) (hp : p ∈ db.productos) :
    snapLookup (ejecutarLogicaMonitor db).1.snapshot p.id = some p.stock := by
  have hne : db.productos ≠ [] := List.ne_nil_of_mem hp
  rw [ejecutarLogicaMonitor_eq db hne]
  set m : Nat → Option Int := fun i => snapLookup db.snapshot i with hmdef
  set upds := (monitorCompara m db.productos).2.2 with hupds
  by_cases hm : m p.id = some p.stock
  · have hnomem : ∀ u ∈ upds, u.id ≠ p.id := by
      intro u hu e
      obtain ⟨q, hq, hequ, hneq⟩ := monitorCompara_upds_mem m db.productos u hu
      have hqid : q.id = p.id := by rw [hequ] at e; exact e
      have : q = p := List.inj_on_of_nodup_map hnd hq hp hqid
      exact hneq (this ▸ hm)
    simpa [foldl_upsert_not_mem upds db.snapshot p.id hnomem] using hm
  · have hmem : (⟨p.id, p.stock⟩ : SnapRow) ∈ upds :=
      monitorCompara_upds_mem_of m db.productos p hp hm
    have hndu : (upds.map SnapRow.id).Nodup :=
      hnd.sublist (monitorCompara_upds_sublist m db.productos)
    exact foldl_upsert_mem upds db.snapshot ⟨p.id, p.stock⟩ hmem hndu

/-- C2: immediately after any `registrarMovimiento` call the snapshot row
of the product equals the recorded new stock, exactly one movement row
was appended to the history, and no other table was touched. -/
theorem registrarMovimiento_efecto (db : DB) (prodId : Nat) (nombre : String)
    (cambio stockAnt stockNue : Int) (tipo ref : String) (razon : Option String) :
    snapLookup (registrarMovimiento db prodId nombre cambio stockAnt stockNue
        tipo ref razon).snapshot prodId = some stockNue ∧
    (registrarMovimiento db prodId nombre cambio stockAnt stockNue
        tipo ref razon).historial =
      db.historial ++ [⟨prodId, nombre, cambio, stockAnt, stockNue, tipo, ref, razon⟩] ∧
    (registrarMovimiento db prodId nombre cambio stockAnt stockNue
        tipo ref razon).productos = db.productos ∧
    (registrarMovimiento db prodId nombre cambio stockAnt stockNue
        tipo ref razon).pedidos = db.pedidos :=
  ⟨upsertSnap_lookup_self _ _ _, rfl, rfl, rfl⟩

/-- C1: one reconciliation pass over a keyed product table emits, for a
tracked product whose live stock differs from its snapshot value,
exactly one drift movement (tipo `ajuste db`, referencia `MONITOR`,
delta live minus snapshot, before the snapshot value, after the live
value), and leaves the snapshot of that product at the live value. -/
theorem monitor_detecta_drift (db : DB) (p : Product) (s : Int)
    (hnd : (db.productos.map Product.id).Nodup) (hp : p ∈ db.productos)
    (hs : snapLookup db.snapshot p.id = some s) (hne : p.stock ≠ s) :
    ((ejecutarLogicaMonitor db).1.historial.drop db.historial.length).filter
        (fun mv => mv.producto_id == p.id) = [movDrift p s] ∧
    snapLookup (ejecutarLogicaMonitor db).1.snapshot p.id = some p.stock := by
  refine ⟨?_, monitor_snapshot_post db hnd p hp⟩
  rw [ejecutarLogicaMonitor_eq db (List.ne_nil_of_mem hp)]
  dsimp only
  rw [List.drop_left]
  exact monitorCompara_filter_drift _ _ p s hnd hp hs hne

/-- The inputs of the concrete drift scenario: snapshot 10, live stock 7. -/
def dbC1 : DB := ⟨[⟨1, "A", 20, 7⟩], [⟨1, 10⟩], [], [], []⟩

theorem monitor_detecta_drift_witness :
    ((dbC1.productos.map Product.id).Nodup ∧
      snapLookup dbC1.snapshot 1 = some 10 ∧ (7 : Int) ≠ 10) ∧
    (((ejecutarLogicaMonitor dbC1).1.historial.drop dbC1.historial.length).filter
        (fun mv => mv.producto_id == 1) = [movDrift ⟨1, "A", 20, 7⟩ 10] ∧
      snapLookup (ejecutarLogicaMonitor dbC1).1.snapshot 1 = some 7) :=
  ⟨⟨by decide, by decide, by decide⟩,
    monitor_detecta_drift dbC1 ⟨1, "A", 20, 7⟩ 10 (by decide) (by decide)
      (by decide) (by decide)⟩

/-- C3: a second reconciliation pass right after a first one, with no
intervening stock change, counts zero adjustments and inserts no drift
movement (the product table is keyed by its primary key). -/
theorem monitor_idempotente (db : DB) (hnd : (db.productos.map Product.id).Nodup) :
    (ejecutarLogicaMonitor (ejecutarLogicaMonitor db).1).2 = 0 ∧
    (ejecutarLogicaMonitor (ejecutarLogicaMonitor db).1).1.historial =
      (ejecutarLogicaMonitor db).1.historial := by
  by_cases hnil : db.productos = []
  · have h1 : ejecutarLogicaMonitor db = (db, 0) := by
      unfold ejecutarLogicaMonitor
      rw [if_pos (by simp [hnil])]
    simp [h1]
  · have hprod : (ejecutarLogicaMonitor db).1.productos = db.productos :=
      ejecutarLogicaMonitor_productos db
    have hnil1 : (ejecutarLogicaMonitor db).1.productos ≠ [] := by
      rw [hprod]; exact hnil
    have hall : ∀ p ∈ (ejecutarLogicaMonitor db).1.productos,
        snapLookup (ejecutarLogicaMonitor db).1.snapshot p.id = some p.stock := by
      intro p hp
      exact monitor_snapshot_post db hnd p (hprod ▸ hp)
    rw [ejecutarLogicaMonitor_eq _ hnil1, monitorCompara_no_change _ _ hall]
    exact ⟨rfl, by simp⟩

/-- The concrete idempotence scenario: one drifted product. -/
def dbC3 : DB := ⟨[⟨1, "A", 20, 7⟩, ⟨2, "B", 5, 3⟩], [⟨1, 10⟩], [], [], []⟩

theorem monitor_idempotente_witness :
    (dbC3.productos.map Product.id).Nodup ∧
    ((ejecutarLogicaMonitor (ejecutarLogicaMonitor dbC3).1).2 = 0 ∧
      (ejecutarLogicaMonitor (ejecutarLogicaMonitor dbC3).1).1.historial =
        (ejecutarLogicaMonitor dbC3).1.historial) :=
  ⟨by decide, monitor_idempotente dbC3 (by decide)⟩

/-! Lemmas about keyed product lookups under stock updates. -/

lemma find?_id_map (f : Product → Product) (hf : ∀ p, (f p).id = p.id)
    (l : List Product) (x : Nat) :
    (l.map f).find? (fun p => p.id == x) = (l.find? (fun p => p.id == x)).map f := by
  induction l with
  | nil => rfl
  | cons q t ih =>
    by_cases hq : q.id = x
    · rw [List.map_cons, List.find?_cons_of_pos _ (by simpa [hf] using hq),
        List.find?_cons_of_pos _ (by simpa using hq)]
      rfl
    · rw [List.map_cons, List.find?_cons_of_neg _ (by simpa [hf] using hq),
        List.find?_cons_of_neg _ (by simpa using hq)]
      exact ih

lemma stockf_id (pid : Nat) (s : Int) (p : Product) :
    ((if p.id == pid then { p with stock := s } else p) : Product).id = p.id := by
  split <;> rfl

lemma updateStock_find?_self (db : DB) (pid : Nat) (s : Int) (prod : Product)
    (h : db.productos.find? (fun p => p.id == pid) = some prod) :
    (updateStock db pid s).productos.find? (fun p => p.id == pid) =
      some { prod with stock := s } := by
  have hbeq : (prod.id == pid) = true := by
    have := List.find?_some h
    simpa using this
  rw [updateStock_productos, find?_id_map _ (stockf_id pid s) _ _, h]
  have : prod.id = pid := by simpa using hbeq
  simp [this]

lemma updateStock_find?_isSome (db : DB) (pid x : Nat) (s : Int) :
    ((updateStock db pid s).productos.find? (fun p => p.id == x)).isSome =
      (db.productos.find? (fun p => p.id == x)).isSome := by
  rw [updateStock_productos, find?_id_map _ (stockf_id pid s) _ _]
  cases db.productos.find? (fun p => p.id == x) <;> rfl

/-! Lemmas about the sale item loop. -/

lemma procesaItems_pedidos (oid : String) :
    ∀ (l : List ReqItem) (db : DB), (procesaItems oid db l).1.pedidos = db.pedidos := by
  intro l
  induction l with
  | nil => intro db; rfl
  | cons it rest ih =>
    intro db
    simp only [procesaItems]
    split
    · rfl
    · next prod hfind =>
      split
      · rfl
      · split
        · next db2 lineas tot hrec =>
          have := ih (registrarMovimiento (updateStock db it.id (prod.stock - it.cantidad))
            it.id prod.nombre (-it.cantidad) prod.stock (prod.stock - it.cantidad) "VENTA" oid none)
          rw [hrec] at this
          simpa using this
        · next db2 e hrec =>
          have := ih (registrarMovimiento (updateStock db it.id (prod.stock - it.cantidad))
            it.id prod.nombre (-it.cantidad) prod.stock (prod.stock - it.cantidad) "VENTA" oid none)
          rw [hrec] at this
          simpa using this

lemma procesaItems_find_isSome (oid : String) :
    ∀ (l : List ReqItem) (db : DB) (x : Nat),
    ((procesaItems oid db l).1.productos.find? (fun p => p.id == x)).isSome =
      (db.productos.find? (fun p => p.id == x)).isSome := by
  intro l
  induction l with
  | nil => intro db x; rfl
  | cons it rest ih =>
    intro db x
    simp only [procesaItems]
    split
    · rfl
    · next prod hfind =>
      split
      · rfl
      · have hstep : ((updateStock db it.id (prod.stock - it.cantidad)).productos.find?
            (fun p => p.id == x)).isSome =
            (db.productos.find? (fun p => p.id == x)).isSome :=
          updateStock_find?_isSome db it.id x _
        split
        · next db2 lineas tot hrec =>
          have := ih (registrarMovimiento (updateStock db it.id (prod.stock - it.cantidad))
            it.id prod.nombre (-it.cantidad) prod.stock (prod.stock - it.cantidad) "VENTA" oid none) x
          rw [hrec, registrarMovimiento_productos] at this
          rw [hstep] at this
          exact this
        · next db2 e hrec =>
          have := ih (registrarMovimiento (updateStock db it.id (prod.stock - it.cantidad))
            it.id prod.nombre (-it.cantidad) prod.stock (prod.stock - it.cantidad) "VENTA" oid none) x
          rw [hrec, registrarMovimiento_productos] at this
          rw [hstep] at this
          exact this

/-- C4: selling 3 units of a product priced 20 with stock 5 yields an
order line with subtotal 60 and total 60, leaves the product at stock 2,
and appends exactly one `VENTA` movement with delta -3, before 5,
after 2; the order row is inserted. -/
theorem guardar_pedido_venta (db : DB) (prodId : Nat) (prod : Product)
    (usuario : String) (uid neg : Option String) (now : Int)
    (hfind : db.productos.find? (fun p => p.id == prodId) = some prod)
    (hprecio : prod.precio = 20) (hstock : prod.stock = 5) :
    (guardarPedidos db [⟨prodId, 3, none, none⟩] usuario uid neg now).2 =
      .ok ⟨toString now, usuario, some (now - 3 * 60 * 60 * 1000),
        [⟨prodId, prod.nombre, 3, 20, 60⟩], 60, uid, neg, none⟩ ∧
    (guardarPedidos db [⟨prodId, 3, none, none⟩] usuario uid neg
        now).1.productos.find? (fun p => p.id == prodId) =
      some { prod with stock := 2 } ∧
    (guardarPedidos db [⟨prodId, 3, none, none⟩] usuario uid neg now).1.historial =
      db.historial ++ [⟨prodId, prod.nombre, -3, 5, 2, "VENTA", toString now, none⟩] ∧
    (guardarPedidos db [⟨prodId, 3, none, none⟩] usuario uid neg now).1.pedidos =
      db.pedidos ++ [⟨toString now, usuario, some (now - 3 * 60 * 60 * 1000),
        [⟨prodId, prod.nombre, 3, 20, 60⟩], 60, uid, neg, none⟩] := by
  have hproc : procesaItems (toString now) db [⟨prodId, 3, none, none⟩] =
      (registrarMovimiento (updateStock db prodId 2) prodId prod.nombre (-3) 5 2
        "VENTA" (toString now) none,
       .ok ([⟨prodId, prod.nombre, 3, 20, 60⟩], 60)) := by
    simp only [procesaItems, hfind]
    norm_num [hprecio, hstock, Option.orElse, updateStock]
  have hfind2 : (registrarMovimiento (updateStock db prodId 2) prodId prod.nombre (-3) 5 2
      "VENTA" (toString now) none).productos.find? (fun p => p.id == prodId) =
      some { prod with stock := 2 } := by
    rw [registrarMovimiento_productos]
    exact updateStock_find?_self db prodId 2 prod hfind
  have hg : guardarPedidos db [⟨prodId, 3, none, none⟩] usuario uid neg now =
      ({ registrarMovimiento (updateStock db prodId 2) prodId prod.nombre (-3) 5 2
          "VENTA" (toString now) none with
         pedidos := (registrarMovimiento (updateStock db prodId 2) prodId prod.nombre
            (-3) 5 2 "VENTA" (toString now) none).pedidos ++
          [⟨toString now, usuario, some (now - 3 * 60 * 60 * 1000),
            [⟨prodId, prod.nombre, 3, 20, 60⟩], 60, uid, neg, none⟩] },
       .ok ⟨toString now, usuario, some (now - 3 * 60 * 60 * 1000),
        [⟨prodId, prod.nombre, 3, 20, 60⟩], 60, uid, neg, none⟩) := by
    simp [guardarPedidos, hproc]
  rw [hg]
  exact ⟨rfl, hfind2, rfl, rfl⟩

/-- The concrete sale scenario: one product, price 20, stock 5. -/
def dbC4 : DB := ⟨[⟨1, "A", 20, 5⟩], [], [], [], []⟩

theorem guardar_pedido_venta_witness :
    (dbC4.productos.find? (fun p => p.id == 1) = some ⟨1, "A", 20, 5⟩ ∧
      (⟨1, "A", 20, 5⟩ : Product).precio = 20 ∧
      (⟨1, "A", 20, 5⟩ : Product).stock = 5) ∧
    ((guardarPedidos dbC4 [⟨1, 3, none, none⟩] "u" none none 1000).2 =
      .ok ⟨toString (1000 : Int), "u", some (1000 - 3 * 60 * 60 * 1000),
        [⟨1, "A", 3, 20, 60⟩], 60, none, none, none⟩ ∧
    (guardarPedidos dbC4 [⟨1, 3, none, none⟩] "u" none none
        1000).1.productos.find? (fun p => p.id == 1) =
      some ⟨1, "A", 20, 2⟩ ∧
    (guardarPedidos dbC4 [⟨1, 3, none, none⟩] "u" none none 1000).1.historial =
      dbC4.historial ++ [⟨1, "A", -3, 5, 2, "VENTA", toString (1000 : Int), none⟩] ∧
    (guardarPedidos dbC4 [⟨1, 3, none, none⟩] "u" none none 1000).1.pedidos =
      dbC4.pedidos ++ [⟨toString (1000 : Int), "u", some (1000 - 3 * 60 * 60 * 1000),
        [⟨1, "A", 3, 20, 60⟩], 60, none, none, none⟩]) :=
  ⟨⟨by decide, by decide, by decide⟩,
    guardar_pedido_venta dbC4 1 ⟨1, "A", 20, 5⟩ "u" none none 1000
      (by decide) (by decide) (by decide)⟩

lemma procesaItems_abort (oid : String) (bad : ReqItem) (suf : List ReqItem) :
    ∀ (pre : List ReqItem) (db : DB),
    (∀ it ∈ pre, (db.productos.find? (fun p => p.id == it.id)).isSome ∧ 0 < it.cantidad) →
    db.productos.find? (fun p => p.id == bad.id) = none →
    procesaItems oid db (pre ++ bad :: suf) =
      ((procesaItems oid db pre).1, .error (ventaMsgNotFound bad.id)) := by
  intro pre
  induction pre with
  | nil =>
    intro db _ hbad
    simp [procesaItems, hbad]
  | cons it t ih =>
    intro db hpre hbad
    obtain ⟨hsome, hq⟩ := hpre it (List.mem_cons_self _ _)
    obtain ⟨prod, hfind⟩ := Option.isSome_iff_exists.mp hsome
    have hc : ¬ it.cantidad ≤ 0 := not_le.mpr hq
    set db1 := registrarMovimiento (updateStock db it.id (prod.stock - it.cantidad))
      it.id prod.nombre (-it.cantidad) prod.stock (prod.stock - it.cantidad)
      "VENTA" oid none with hdb1
    have hstab : ∀ x : Nat, ((db1.productos.find? (fun p => p.id == x)).isSome) =
        ((db.productos.find? (fun p => p.id == x)).isSome) := by
      intro x
      rw [hdb1, registrarMovimiento_productos]
      exact updateStock_find?_isSome db it.id x _
    have hpre1 : ∀ u ∈ t, (db1.productos.find? (fun p => p.id == u.id)).isSome ∧
        0 < u.cantidad := by
      intro u hu
      refine ⟨?_, (hpre u (List.mem_cons_of_mem _ hu)).2⟩
      rw [hstab u.id]
      exact (hpre u (List.mem_cons_of_mem _ hu)).1
    have hbad1 : db1.productos.find? (fun p => p.id == bad.id) = none := by
      have := hstab bad.id
      rw [hbad] at this
      exact Option.not_isSome_iff_eq_none.mp (by simp [this])
    have hrec := ih db1 hpre1 hbad1
    show procesaItems oid db ((it :: t) ++ bad :: suf) = _
    rw [List.cons_append]
    simp only [procesaItems, hfind, if_neg hc]
    rw [hrec]
    cases hres : procesaItems oid db1 t with
    | mk db2 res =>
      cases res <;> simp [hres]

/-- The two-item request whose second product id is unknown. -/
def dbC5 : DB := ⟨[⟨1, "A", 10, 5⟩], [], [], [], []⟩

/-- C5 counterexample: a strict placement with a valid first item and an
unknown second product returns the structured error and persists no
order, but the first item's stock decrement (5 to 4) and its `VENTA`
movement are already applied and not rolled back — the claim's "applies
no stock decrement for any item of the request" is false. -/
theorem guardar_pedido_aborta_counterexample :
    (guardarPedidos dbC5 [⟨1, 1, none, none⟩, ⟨2, 1, none, none⟩] "u" none none 0).2 =
      .error (ventaMsgNotFound 2) ∧
    (guardarPedidos dbC5 [⟨1, 1, none, none⟩, ⟨2, 1, none, none⟩] "u" none
        none 0).1.pedidos = [] ∧
    (guardarPedidos dbC5 [⟨1, 1, none, none⟩, ⟨2, 1, none, none⟩] "u" none
        none 0).1.productos.find? (fun p => p.id == 1) = some ⟨1, "A", 10, 4⟩ ∧
    (guardarPedidos dbC5 [⟨1, 1, none, none⟩, ⟨2, 1, none, none⟩] "u" none
        none 0).1.historial.length = 1 := by
  refine ⟨rfl, rfl, by decide, rfl⟩

/-- C5 amended: when the request is a run of valid items followed by an
item whose product id is unknown, the whole order is aborted — the
structured error names the offending item and no Order row is persisted
— but the state keeps exactly the stock decrements and movements of the
items processed before the offending one. -/
theorem guardar_pedido_aborta (db : DB) (pre : List ReqItem) (bad : ReqItem)
    (suf : List ReqItem) (usuario : String) (uid neg : Option String) (now : Int)
    (hpre : ∀ it ∈ pre, (db.productos.find? (fun p => p.id == it.id)).isSome ∧
      0 < it.cantidad)
    (hbad : db.productos.find? (fun p => p.id == bad.id) = none) :
    guardarPedidos db (pre ++ bad :: suf) usuario uid neg now =
      ((procesaItems (toString now) db pre).1, .error (ventaMsgNotFound bad.id)) ∧
    (procesaItems (toString now) db pre).1.pedidos = db.pedidos := by
  constructor
  · simp only [guardarPedidos]
    rw [if_neg (by simp)]
    rw [procesaItems_abort (toString now) bad suf pre db hpre hbad]
  · exact procesaItems_pedidos _ pre db

theorem guardar_pedido_aborta_witness :
    ((∀ it ∈ [(⟨1, 1, none, none⟩ : ReqItem)],
        (dbC5.productos.find? (fun p => p.id == it.id)).isSome ∧ 0 < it.cantidad) ∧
      dbC5.productos.find? (fun p => p.id == 2) = none) ∧
    (guardarPedidos dbC5 ([⟨1, 1, none, none⟩] ++ [⟨2, 1, none, none⟩]) "u"
        none none 0 =
      ((procesaItems (toString (0 : Int)) dbC5 [⟨1, 1, none, none⟩]).1,
        .error (ventaMsgNotFound 2)) ∧
     (procesaItems (toString (0 : Int)) dbC5 [⟨1, 1, none, none⟩]).1.pedidos =
       dbC5.pedidos) :=
  ⟨⟨by decide, by decide⟩,
    guardar_pedido_aborta dbC5 [⟨1, 1, none, none⟩] ⟨2, 1, none, none⟩ [] "u"
      none none 0 (by decide) (by decide)⟩

/-! Lemmas about the delete-restore loop. -/

lemma restauraItems_pedidos (oid razon : String) :
    ∀ (l : List ItemLine) (db : DB),
    (restauraItems oid razon db l).pedidos = db.pedidos := by
  intro l
  induction l with
  | nil => intro db; rfl
  | cons it rest ih =>
    intro db
    simp only [restauraItems]
    split
    · exact ih db
    · next prod hfind =>
      rw [ih _]
      rfl

lemma restauraItems_historial (oid razon : String) :
    ∀ (l : List ItemLine) (db : DB),
    ∃ tl : List Mov,
      (restauraItems oid razon db l).historial = db.historial ++ tl ∧
      tl.map (fun m => (m.producto_id, m.cantidad_cambio, m.tipo_movimiento)) =
        (l.filter (fun it =>
          (db.productos.find? (fun p => p.id == it.id)).isSome)).map
          (fun it => (it.id, it.cantidad, "ELIMINAR_PEDIDO")) ∧
      ∀ m ∈ tl, m.stock_nuevo = m.stock_anterior + m.cantidad_cambio := by
  intro l
  induction l with
  | nil => intro db; exact ⟨[], by simp [restauraItems], rfl, by simp⟩
  | cons it rest ih =>
    intro db
    simp only [restauraItems]
    cases hfind : db.productos.find? (fun p => p.id == it.id) with
    | none =>
      obtain ⟨tl, h1, h2, h3⟩ := ih db
      refine ⟨tl, ?_, ?_, h3⟩
      · simpa [hfind] using h1
      · rw [List.filter_cons]
        simp only [hfind, Option.isSome_none, Bool.false_eq_true, if_false]
        exact h2
    | some prod =>
      set db' := registrarMovimiento (updateStock db it.id (prod.stock + it.cantidad))
        it.id prod.nombre it.cantidad prod.stock (prod.stock + it.cantidad)
        "ELIMINAR_PEDIDO" oid (some razon) with hdb'
      obtain ⟨tl, h1, h2, h3⟩ := ih db'
      refine ⟨⟨it.id, prod.nombre, it.cantidad, prod.stock, prod.stock + it.cantidad,
        "ELIMINAR_PEDIDO", oid, some razon⟩ :: tl, ?_, ?_, ?_⟩
      · simp only [hfind]
        rw [h1, hdb']
        simp [registrarMovimiento]
      · rw [List.filter_cons]
        simp only [hfind, Option.isSome_some, if_true, List.map_cons]
        refine congrArg _ ?_
        rw [h2]
        refine congrArg _ (List.filter_congr ?_)
        intro u hu
        rw [hdb', registrarMovimiento_productos]
        rw [Bool.eq_iff_iff, Option.isSome_iff_exists, Option.isSome_iff_exists]
        constructor
        · rintro ⟨q, hq⟩
          have := updateStock_find?_isSome db it.id u.id (prod.stock + it.cantidad)
          rw [hq] at this
          exact Option.isSome_iff_exists.mp (by simp [this.symm])
        · rintro ⟨q, hq⟩
          have := updateStock_find?_isSome db it.id u.id (prod.stock + it.cantidad)
          rw [hq] at this
          exact Option.isSome_iff_exists.mp (by simp [this])
      · intro m hm
        rcases List.mem_cons.mp hm with h | h
        · subst h; rfl
        · exact h3 m h

/-- C6: deleting an existing order that was received performs no stock
restoration and only removes the order row; deleting one that was not
received appends one `ELIMINAR_PEDIDO` movement per line item whose
product exists, each with delta equal to the line quantity and after
equal to before plus delta, removes the order row, and for a single-line
order raises that product's stock by the line quantity. -/
theorem eliminar_pedido_restaura (db : DB) (oid : String) (pedido : Pedido)
    (hfind : db.pedidos.find? (fun p => p.id == oid) = some pedido) :
    ((eliminarPedido db oid true).1.productos = db.productos ∧
     (eliminarPedido db oid true).1.historial = db.historial ∧
     (eliminarPedido db oid true).1.pedidos =
       db.pedidos.filter (fun p => !(p.id == oid)) ∧
     (eliminarPedido db oid true).2 = .ok ()) ∧
    ((eliminarPedido db oid false).1.pedidos =
       db.pedidos.filter (fun p => !(p.id == oid)) ∧
     (eliminarPedido db oid false).2 = .ok () ∧
     ((eliminarPedido db oid false).1.historial.drop db.historial.length).map
        (fun m => (m.producto_id, m.cantidad_cambio, m.tipo_movimiento)) =
       (pedido.items.filter (fun it =>
          (db.productos.find? (fun p => p.id == it.id)).isSome)).map
         (fun it => (it.id, it.cantidad, "ELIMINAR_PEDIDO")) ∧
     (∀ m ∈ (eliminarPedido db oid false).1.historial.drop db.historial.length,
        m.stock_nuevo = m.stock_anterior + m.cantidad_cambio) ∧
     (∀ it prod, pedido.items = [it] →
        db.productos.find? (fun p => p.id == it.id) = some prod →
        (eliminarPedido db oid false).1.productos.find? (fun p => p.id == it.id) =
          some { prod with stock := prod.stock + it.cantidad })) := by
  obtain ⟨tl, h1, h2, h3⟩ := restauraItems_historial oid
    ("Restauración por eliminación de Pedido #" ++ oid ++ " (" ++ pedido.user ++ ")")
    pedido.items db
  have hET : eliminarPedido db oid true =
      ({ db with pedidos := db.pedidos.filter (fun p => !(p.id == oid)) }, .ok ()) := by
    simp [eliminarPedido, hfind]
  have hEF : eliminarPedido db oid false =
      ({ restauraItems oid
          ("Restauración por eliminación de Pedido #" ++ oid ++ " (" ++ pedido.user ++ ")")
          db pedido.items with
         pedidos := (restauraItems oid
          ("Restauración por eliminación de Pedido #" ++ oid ++ " (" ++ pedido.user ++ ")")
          db pedido.items).pedidos.filter (fun p => !(p.id == oid)) }, .ok ()) := by
    simp [eliminarPedido, hfind]
  refine ⟨⟨by rw [hET], by rw [hET], by rw [hET], by rw [hET]⟩, ?_, ?_, ?_, ?_, ?_⟩
  · rw [hEF]
    show (restauraItems _ _ db pedido.items).pedidos.filter _ = _
    rw [restauraItems_pedidos]
  · rw [hEF]
  · rw [hEF]
    show ((restauraItems _ _ db pedido.items).historial.drop db.historial.length).map _ = _
    rw [h1, List.drop_left]
    exact h2
  · rw [hEF]
    show ∀ m ∈ (restauraItems _ _ db pedido.items).historial.drop db.historial.length, _
    rw [h1, List.drop_left]
    exact h3
  · intro it prod hitems hfp
    rw [hEF]
    show (restauraItems _ _ db pedido.items).productos.find? _ = _
    rw [hitems]
    simp only [restauraItems, hfp]
    rw [registrarMovimiento_productos]
    exact updateStock_find?_self db it.id (prod.stock + it.cantidad) prod hfp

/-- The concrete deletion scenario: a one-line order of 3 units with the
product at stock 2. -/
def dbC6 : DB := ⟨[⟨1, "A", 20, 2⟩], [], [],
  [⟨"9", "u", none, [⟨1, "A", 3, 20, 60⟩], 60, none, none, none⟩], []⟩

theorem eliminar_pedido_restaura_witness :
    (dbC6.pedidos.find? (fun p => p.id == "9") =
      some ⟨"9", "u", none, [⟨1, "A", 3, 20, 60⟩], 60, none, none, none⟩) ∧
    (((eliminarPedido dbC6 "9" true).1.productos = dbC6.productos ∧
      (eliminarPedido dbC6 "9" true).1.historial = dbC6.historial ∧
      (eliminarPedido dbC6 "9" true).1.pedidos =
        dbC6.pedidos.filter (fun p => !(p.id == "9")) ∧
      (eliminarPedido dbC6 "9" true).2 = .ok ()) ∧
     ((eliminarPedido dbC6 "9" false).1.pedidos =
        dbC6.pedidos.filter (fun p => !(p.id == "9")) ∧
      (eliminarPedido dbC6 "9" false).2 = .ok () ∧
      ((eliminarPedido dbC6 "9" false).1.historial.drop dbC6.historial.length).map
         (fun m => (m.producto_id, m.cantidad_cambio, m.tipo_movimiento)) =
        ((⟨"9", "u", none, [⟨1, "A", 3, 20, 60⟩], 60, none, none, none⟩ :
            Pedido).items.filter (fun it =>
           (dbC6.productos.find? (fun p => p.id == it.id)).isSome)).map
          (fun it => (it.id, it.cantidad, "ELIMINAR_PEDIDO")) ∧
      (∀ m ∈ (eliminarPedido dbC6 "9" false).1.historial.drop dbC6.historial.length,
         m.stock_nuevo = m.stock_anterior + m.cantidad_cambio) ∧
      (∀ it prod, (⟨"9", "u", none, [⟨1, "A", 3, 20, 60⟩], 60, none, none, none⟩ :
            Pedido).items = [it] →
         dbC6.productos.find? (fun p => p.id == it.id) = some prod →
         (eliminarPedido dbC6 "9" false).1.productos.find? (fun p => p.id == it.id) =
           some { prod with stock := prod.stock + it.cantidad }))) :=
  ⟨by decide, eliminar_pedido_restaura dbC6 "9"
    ⟨"9", "u", none, [⟨1, "A", 3, 20, 60⟩], 60, none, none, none⟩ (by decide)⟩

/-! Lemmas about the debt ledger. -/

/-- Number of ledger lines carrying a given order id. -/
def countId (pid : String) (items : List DebtItem) : Nat :=
  (items.filter (fun i => i.id == pid)).length

lemma pruneKeep_iff (lim : Int) (it : DebtItem) :
    pruneKeep lim it = true ↔
      ¬(it.type = "debt" ∧ ∃ d, it.date = some d ∧ d ≤ lim ∧
        it.amount - it.paid ≤ 0) := by
  unfold pruneKeep
  by_cases ht : it.type = "debt"
  · have hbeq : (it.type == "debt") = true := by simpa using ht
    rw [if_pos hbeq]
    cases hd : it.date with
    | none => simp
    | some d =>
      show (decide (lim < d) || decide (0 < it.amount - it.paid)) = true ↔ _
      rw [Bool.or_eq_true, decide_eq_true_iff, decide_eq_true_iff]
      constructor
      · rintro (h | h) ⟨-, d', hd', hle, hpay⟩
        · cases Option.some.inj hd'
          exact absurd h (not_lt.mpr hle)
        · exact absurd h (not_lt.mpr hpay)
      · intro h
        by_cases h1 : lim < d
        · exact Or.inl h1
        · refine Or.inr ?_
          by_contra h2
          exact h ⟨ht, d, rfl, not_lt.mp h1, not_lt.mp h2⟩
  · have hbeq : (it.type == "debt") = false := by simpa using ht
    rw [if_neg (by simp [hbeq])]
    simp [ht]

lemma find?_filter_keep (l : List DebtItem) (q f : DebtItem → Bool) (a : DebtItem)
    (h : l.find? q = some a) (hk : f a = true) :
    (l.filter f).find? q = some a := by
  induction l with
  | nil => cases h
  | cons x t ih =>
    by_cases hq : q x = true
    · rw [List.find?_cons_of_pos _ hq] at h
      obtain rfl := Option.some.inj h
      rw [List.filter_cons, if_pos hk]
      exact List.find?_cons_of_pos _ hq
    · rw [List.find?_cons_of_neg _ hq] at h
      rw [List.filter_cons]
      by_cases hf : f x = true
      · rw [if_pos hf, List.find?_cons_of_neg _ hq]
        exact ih h
      · rw [if_neg hf]
        exact ih h

lemma pruneItems_idem (lim : Int) (l : List DebtItem) :
    pruneItems lim (pruneItems lim l) = pruneItems lim l :=
  List.filter_eq_self.mpr (fun _ ha => (List.mem_filter.mp ha).2)

lemma replaceDebt_find? (l : List DebtItem) (pid : String) (f : DebtItem → DebtItem)
    (hf : ∀ i, (f i).id = i.id) (a : DebtItem)
    (h : l.find? (fun i => i.id == pid) = some a) :
    (replaceDebt l pid f).find? (fun i => i.id == pid) = some (f a) := by
  induction l with
  | nil => cases h
  | cons x t ih =>
    by_cases hx : (x.id == pid) = true
    · rw [List.find?_cons, hx] at h
      obtain rfl := Option.some.inj h
      unfold replaceDebt
      rw [if_pos hx, List.find?_cons]
      have hfp : ((f x).id == pid) = true := by rw [hf]; exact hx
      rw [hfp]
    · have hxf : (x.id == pid) = false := by simpa using hx
      rw [List.find?_cons, hxf] at h
      unfold replaceDebt
      rw [if_neg hx, List.find?_cons, hxf]
      exact ih h

lemma replaceDebt_all (l : List DebtItem) (pid : String) (f : DebtItem → DebtItem)
    (g : DebtItem → Bool) (a : DebtItem)
    (hfind : l.find? (fun i => i.id == pid) = some a)
    (hl : ∀ x ∈ l, g x = true) (hfa : g (f a) = true) :
    ∀ x ∈ replaceDebt l pid f, g x = true := by
  induction l with
  | nil => cases hfind
  | cons x t ih =>
    by_cases hx : (x.id == pid) = true
    · rw [List.find?_cons, hx] at hfind
      obtain rfl := Option.some.inj hfind
      unfold replaceDebt
      rw [if_pos hx]
      intro y hy
      rcases List.mem_cons.mp hy with h | h
      · exact h ▸ hfa
      · exact hl y (List.mem_cons_of_mem _ h)
    · have hxf : (x.id == pid) = false := by simpa using hx
      rw [List.find?_cons, hxf] at hfind
      unfold replaceDebt
      rw [if_neg hx]
      intro y hy
      rcases List.mem_cons.mp hy with h | h
      · exact h ▸ hl x (List.mem_cons_self _ _)
      · exact ih hfind (fun z hz => hl z (List.mem_cons_of_mem _ hz)) y h

lemma replaceDebt_countId (l : List DebtItem) (pid : String) (f : DebtItem → DebtItem)
    (hf : ∀ i, (f i).id = i.id) (pid' : String) :
    countId pid' (replaceDebt l pid f) = countId pid' l := by
  induction l with
  | nil => rfl
  | cons x t ih =>
    unfold replaceDebt countId
    by_cases hx : (x.id == pid) = true
    · rw [if_pos hx]
      rw [List.filter_cons, List.filter_cons, hf]
      split <;> simp [countId]
    · rw [if_neg (by simpa using hx)]
      rw [List.filter_cons, List.filter_cons]
      split
      · simpa [countId] using ih
      · simpa [countId] using ih

lemma countId_filter_le (pid : String) (l : List DebtItem) (f : DebtItem → Bool) :
    countId pid (l.filter f) ≤ countId pid l := by
  unfold countId
  exact ((List.filter_sublist l).filter (fun i : DebtItem => i.id == pid)).length_le

lemma countId_eq_zero_of_find?_none (pid : String) (l : List DebtItem)
    (h : l.find? (fun i => i.id == pid) = none) : countId pid l = 0 := by
  unfold countId
  rw [List.filter_eq_nil_iff.mpr (List.find?_eq_none.mp h), List.length_nil]

/-! Branch equations for the debt-ledger task. -/

lemma sincronizarCobranza_create (data : ClientData) (pedido : Pedido)
    (lim now : Int)
    (hfind : (pruneItems lim data.items).find? (fun i => i.id == pedido.id) = none) :
    sincronizarCobranza data pedido lim now =
      ⟨(⟨pedido.id, "debt", (mathRound pedido.total : Rat), 0,
          some (pedido.fecha.getD now), pedido.nombre_negocio.getD "", "orange"⟩ :
            DebtItem) :: pruneItems lim data.items,
        capHistory (⟨now, pruneItems lim data.items,
          "📦 Nuevo Pedido #" ++ pedido.id, "debt"⟩ :: data.history)⟩ := by
  simp [sincronizarCobranza, hfind]

lemma sincronizarCobranza_noop (data : ClientData) (pedido : Pedido)
    (lim now : Int) (it : DebtItem)
    (hfind : (pruneItems lim data.items).find? (fun i => i.id == pedido.id) = some it)
    (heq : it.amount = (mathRound pedido.total : Rat)) :
    sincronizarCobranza data pedido lim now = data := by
  simp [sincronizarCobranza, hfind, heq]

lemma sincronizarCobranza_update (data : ClientData) (pedido : Pedido)
    (lim now : Int) (it : DebtItem)
    (hfind : (pruneItems lim data.items).find? (fun i => i.id == pedido.id) = some it)
    (hne : ¬ it.amount = (mathRound pedido.total : Rat)) :
    sincronizarCobranza data pedido lim now =
      ⟨replaceDebt (pruneItems lim data.items) pedido.id
          (fun i => { i with
              amount := (mathRound pedido.total : Rat),
              notes := pedido.nombre_negocio.getD i.notes }),
        capHistory (⟨now, pruneItems lim data.items,
          "🔄 Update Pedido #" ++ pedido.id, "edit"⟩ :: data.history)⟩ := by
  simp [sincronizarCobranza, hfind, hne]

lemma sincronizarCobranza_countId (d : ClientData) (p : Pedido) (lim now : Int)
    (h : countId p.id d.items ≤ 1) :
    countId p.id (sincronizarCobranza d p lim now).items ≤ 1 := by
  have hfil : countId p.id (pruneItems lim d.items) ≤ countId p.id d.items :=
    countId_filter_le p.id d.items (pruneKeep lim)
  cases hfind : (pruneItems lim d.items).find? (fun i => i.id == p.id) with
  | none =>
    rw [sincronizarCobranza_create d p lim now hfind]
    show countId p.id (_ :: pruneItems lim d.items) ≤ 1
    unfold countId
    rw [List.filter_cons]
    have hz : countId p.id (pruneItems lim d.items) = 0 :=
      countId_eq_zero_of_find?_none _ _ hfind
    unfold countId at hz
    simp [hz]
  | some it =>
    by_cases heq : it.amount = (mathRound p.total : Rat)
    · rw [sincronizarCobranza_noop d p lim now it hfind heq]
      exact h
    · rw [sincronizarCobranza_update d p lim now it hfind heq]
      show countId p.id (replaceDebt (pruneItems lim d.items) p.id _) ≤ 1
      rw [replaceDebt_countId (pruneItems lim d.items) p.id
        (fun i => { i with
            amount := (mathRound p.total : Rat),
            notes := p.nombre_negocio.getD i.notes }) (fun i => rfl) p.id]
      exact le_trans hfil h

/-- C7 amended: a second fulfillment of the same order never leaves more
than one ledger line for the order id; and provided the line present
after the first fulfillment is not prunable as stale at the second run,
the second fulfillment is a complete no-op on the document.  (When that
line is stale — debt with a date on or before the cutoff and
non-positive outstanding balance — the code prunes and re-creates it,
recording a new history entry although the amount is unchanged.) -/
theorem cobranza_idempotente (d : ClientData) (p : Pedido) (lim now : Int)
    (hcnt : countId p.id d.items ≤ 1)
    (hkeep : ((sincronizarCobranza d p lim now).items.find?
        (fun i => i.id == p.id)).all (pruneKeep lim) = true) :
    sincronizarCobranza (sincronizarCobranza d p lim now) p lim now =
      sincronizarCobranza d p lim now ∧
    countId p.id (sincronizarCobranza (sincronizarCobranza d p lim now)
      p lim now).items ≤ 1 := by
  have hmain : sincronizarCobranza (sincronizarCobranza d p lim now) p lim now =
      sincronizarCobranza d p lim now := by
    cases hfind : (pruneItems lim d.items).find? (fun i => i.id == p.id) with
    | none =>
      set nuevo : DebtItem := ⟨p.id, "debt", (mathRound p.total : Rat), 0,
        some (p.fecha.getD now), p.nombre_negocio.getD "", "orange"⟩ with hnuevo
      have hd1 := sincronizarCobranza_create d p lim now hfind
      have hhead : (nuevo.id == p.id) = true := by rw [hnuevo]; simp
      have hfind1 : (sincronizarCobranza d p lim now).items.find?
          (fun i => i.id == p.id) = some nuevo := by
        rw [hd1]
        show (nuevo :: pruneItems lim d.items).find? _ = some nuevo
        rw [List.find?_cons, hhead]
      have hknuevo : pruneKeep lim nuevo = true := by
        rw [hfind1] at hkeep
        simpa using hkeep
      have hpru : pruneItems lim (sincronizarCobranza d p lim now).items =
          (sincronizarCobranza d p lim now).items := by
        rw [hd1]
        show pruneItems lim (nuevo :: pruneItems lim d.items) = _
        unfold pruneItems
        rw [List.filter_cons, if_pos hknuevo]
        have hid := pruneItems_idem lim d.items
        unfold pruneItems at hid
        rw [hid]
      have hfind2 : (pruneItems lim (sincronizarCobranza d p lim now).items).find?
          (fun i => i.id == p.id) = some nuevo := by
        rw [hpru]; exact hfind1
      exact sincronizarCobranza_noop _ p lim now nuevo hfind2 (by rw [hnuevo])
    | some it =>
      by_cases heq : it.amount = (mathRound p.total : Rat)
      · have hd1 := sincronizarCobranza_noop d p lim now it hfind heq
        rw [hd1]
        exact hd1
      · set f : DebtItem → DebtItem := fun i => { i with
            amount := (mathRound p.total : Rat),
            notes := p.nombre_negocio.getD i.notes } with hfdef
        have hd1 := sincronizarCobranza_update d p lim now it hfind heq
        have hfid : ∀ i, (f i).id = i.id := fun i => rfl
        have hfind1 : (sincronizarCobranza d p lim now).items.find?
            (fun i => i.id == p.id) = some (f it) := by
          rw [hd1]
          exact replaceDebt_find? _ _ f hfid it hfind
        have hkf : pruneKeep lim (f it) = true := by
          rw [hfind1] at hkeep
          simpa using hkeep
        have hall : ∀ x ∈ (sincronizarCobranza d p lim now).items,
            pruneKeep lim x = true := by
          rw [hd1]
          exact replaceDebt_all _ _ f (pruneKeep lim) it hfind
            (fun x hx => (List.mem_filter.mp hx).2) hkf
        have hpru : pruneItems lim (sincronizarCobranza d p lim now).items =
            (sincronizarCobranza d p lim now).items :=
          List.filter_eq_self.mpr hall
        have hfind2 : (pruneItems lim (sincronizarCobranza d p lim now).items).find?
            (fun i => i.id == p.id) = some (f it) := by
          rw [hpru]; exact hfind1
        exact sincronizarCobranza_noop _ p lim now (f it) hfind2 rfl
  refine ⟨hmain, ?_⟩
  rw [hmain]
  exact sincronizarCobranza_countId d p lim now hcnt

/-- A fresh fulfillment whose debt line stays within the window. -/
def pC7 : Pedido := ⟨"1", "u", some 5, [], 100, some "c", none, none⟩

theorem cobranza_idempotente_witness :
    (countId "1" (⟨[], []⟩ : ClientData).items ≤ 1 ∧
      ((sincronizarCobranza ⟨[], []⟩ pC7 0 10).items.find?
        (fun i => i.id == "1")).all (pruneKeep 0) = true) ∧
    (sincronizarCobranza (sincronizarCobranza ⟨[], []⟩ pC7 0 10) pC7 0 10 =
      sincronizarCobranza ⟨[], []⟩ pC7 0 10 ∧
     countId "1" (sincronizarCobranza (sincronizarCobranza ⟨[], []⟩ pC7 0 10)
       pC7 0 10).items ≤ 1) :=
  ⟨⟨by decide, by decide⟩,
    cobranza_idempotente ⟨[], []⟩ pC7 0 10 (by decide) (by decide)⟩

/-- A zero-total fulfilled order dated before the three-month cutoff. -/
def pedC7 : Pedido := ⟨"1", "u", some (-100), [], 0, some "c", none, some "Preparado"⟩

/-- The debt line the first fulfillment of `pedC7` creates. -/
def nuevoC7 : DebtItem :=
  ⟨"1", "debt", (mathRound pedC7.total : Rat), 0, some (-100), "", "orange"⟩

/-- C7 counterexample: fulfilling the same zero-total, stale-dated order
twice re-creates its debt line after the prune removed it: the amount is
unchanged, there is still exactly one line for the order, but the second
fulfillment records a second history entry — refuting "recording exactly
one new history entry only if the amount changed". -/
theorem cobranza_counterexample :
    (sincronizarCobranza ⟨[], []⟩ pedC7 0 10).history.length = 1 ∧
    (sincronizarCobranza (sincronizarCobranza ⟨[], []⟩ pedC7 0 10)
      pedC7 0 10).history.length = 2 ∧
    (sincronizarCobranza (sincronizarCobranza ⟨[], []⟩ pedC7 0 10)
      pedC7 0 10).items.map (fun i => i.id) = ["1"] ∧
    (sincronizarCobranza (sincronizarCobranza ⟨[], []⟩ pedC7 0 10)
      pedC7 0 10).items.map (fun i => i.amount) =
      (sincronizarCobranza ⟨[], []⟩ pedC7 0 10).items.map (fun i => i.amount) := by
  have hm : mathRound pedC7.total = 0 := by
    show mathRound 0 = 0
    norm_num [mathRound]
  have h1 : sincronizarCobranza ⟨[], []⟩ pedC7 0 10 =
      ⟨[nuevoC7], [⟨10, [], "📦 Nuevo Pedido #" ++ pedC7.id, "debt"⟩]⟩ := by
    rw [sincronizarCobranza_create ⟨[], []⟩ pedC7 0 10 rfl]
    rfl
  have hpk : pruneKeep 0 nuevoC7 = false := by
    show (if (("debt" : String) == "debt") = true then
        match (some (-100) : Option Int) with
        | none => true
        | some d => decide ((0 : Int) < d) ||
            decide ((0 : Rat) < (mathRound pedC7.total : Rat) - 0)
      else true) = false
    rw [if_pos (by simp), hm]
    norm_num
  have hprune : pruneItems 0 [nuevoC7] = [] := by
    unfold pruneItems
    rw [List.filter_cons, hpk]
    simp
  have h2 : sincronizarCobranza ⟨[nuevoC7],
      [⟨10, [], "📦 Nuevo Pedido #" ++ pedC7.id, "debt"⟩]⟩ pedC7 0 10 =
      ⟨[nuevoC7], [⟨10, [], "📦 Nuevo Pedido #" ++ pedC7.id, "debt"⟩,
        ⟨10, [], "📦 Nuevo Pedido #" ++ pedC7.id, "debt"⟩]⟩ := by
    rw [sincronizarCobranza_create _ pedC7 0 10 (by rw [hprune]; rfl)]
    rw [hprune]
    rfl
  rw [h1, h2]
  exact ⟨rfl, rfl, rfl, rfl⟩

/-- C8: during a debt-ledger synchronization an entry survives the prune
exactly when it is not a stale debt: it is removed precisely when its
type is `debt`, it carries a parseable date not later than the
three-month cutoff, and its outstanding balance is not positive. -/
theorem prune_caracterizacion (lim : Int) (items : List DebtItem) (it : DebtItem) :
    it ∈ pruneItems lim items ↔
      it ∈ items ∧ ¬(it.type = "debt" ∧ ∃ d, it.date = some d ∧ d ≤ lim ∧
        it.amount - it.paid ≤ 0) := by
  unfold pruneItems
  rw [List.mem_filter, pruneKeep_iff]

/-! The per-record movement invariant. -/

/-- A movement row is internally consistent: the recorded after-stock is
the recorded before-stock plus the recorded delta. -/
abbrev movOk (m : Mov) : Prop :=
  m.stock_nuevo = m.stock_anterior + m.cantidad_cambio

lemma registrarMovimiento_movOk (db : DB) (pid : Nat) (n : String)
    (c a s : Int) (t r : String) (z : Option String)
    (h : ∀ m ∈ db.historial, movOk m) (hs : s = a + c) :
    ∀ m ∈ (registrarMovimiento db pid n c a s t r z).historial, movOk m := by
  intro m hm
  rw [registrarMovimiento_historial] at hm
  rcases List.mem_append.mp hm with h1 | h1
  · exact h m h1
  · rw [List.mem_singleton.mp h1]
    exact hs

lemma procesaItems_movOk (oid : String) :
    ∀ (l : List ReqItem) (db : DB), (∀ m ∈ db.historial, movOk m) →
    ∀ m ∈ (procesaItems oid db l).1.historial, movOk m := by
  intro l
  induction l with
  | nil => intro db h; exact h
  | cons it rest ih =>
    intro db h
    simp only [procesaItems]
    split
    · exact h
    · next prod hfind =>
      split
      · exact h
      · have hdb1 : ∀ m ∈ (registrarMovimiento
            (updateStock db it.id (prod.stock - it.cantidad)) it.id prod.nombre
            (-it.cantidad) prod.stock (prod.stock - it.cantidad)
            "VENTA" oid none).historial, movOk m := by
          apply registrarMovimiento_movOk
          · intro m hm
            rw [updateStock_historial] at hm
            exact h m hm
          · omega
        split
        · next db2 lineas tot hrec =>
          intro m hm
          have hh := ih _ hdb1 m (by rw [hrec]; exact hm)
          exact hh
        · next db2 e hrec =>
          intro m hm
          have hh := ih _ hdb1 m (by rw [hrec]; exact hm)
          exact hh

lemma aplicaStockUpdates_movOk (oid razon : String) :
    ∀ (l : List StockUpdate) (db : DB), (∀ m ∈ db.historial, movOk m) →
    ∀ m ∈ (aplicaStockUpdates oid razon db l).historial, movOk m := by
  intro l
  induction l with
  | nil => intro db h; exact h
  | cons u rest ih =>
    intro db h
    simp only [aplicaStockUpdates]
    split
    · exact ih db h
    · next prod hfind =>
      apply ih
      apply registrarMovimiento_movOk
      · intro m hm
        rw [updateStock_historial] at hm
        exact h m hm
      · omega

lemma restauraItems_movOk (oid razon : String) (l : List ItemLine) (db : DB)
    (h : ∀ m ∈ db.historial, movOk m) :
    ∀ m ∈ (restauraItems oid razon db l).historial, movOk m := by
  obtain ⟨tl, h1, _, h3⟩ := restauraItems_historial oid razon l db
  intro m hm
  rw [h1] at hm
  rcases List.mem_append.mp hm with hmem | hmem
  · exact h m hmem
  · exact h3 m hmem

lemma ejecutarLogicaMonitor_movOk (db : DB)
    (h : ∀ m ∈ db.historial, movOk m) :
    ∀ m ∈ (ejecutarLogicaMonitor db).1.historial, movOk m := by
  by_cases hnil : db.productos = []
  · unfold ejecutarLogicaMonitor
    rw [if_pos (by simp [hnil])]
    exact h
  · rw [ejecutarLogicaMonitor_eq db hnil]
    intro m hm
    rcases List.mem_append.mp hm with hmem | hmem
    · exact h m hmem
    · obtain ⟨q, _, foto, _, _, h3⟩ :=
        monitorCompara_movs_mem (fun i => snapLookup db.snapshot i) db.productos m hmem
      rw [h3]
      show q.stock = foto + (q.stock - foto)
      omega

/-- C10: every operation that writes the movement history — sale, order
edit, order-delete restoration, and the drift monitor — preserves the
per-record invariant: each history row has after equal to before plus
delta. -/
theorem historial_consistente (db : DB)
    (h : ∀ m ∈ db.historial, movOk m) :
    (∀ its usuario uid neg now, ∀ m ∈
      (guardarPedidos db its usuario uid neg now).1.historial, movOk m) ∧
    (∀ pid its sus, ∀ m ∈ (actualizarPedido db pid its sus).1.historial, movOk m) ∧
    (∀ oid rec, ∀ m ∈ (eliminarPedido db oid rec).1.historial, movOk m) ∧
    (∀ m ∈ (ejecutarLogicaMonitor db).1.historial, movOk m) := by
  refine ⟨?_, ?_, ?_, ejecutarLogicaMonitor_movOk db h⟩
  · intro its usuario uid neg now
    simp only [guardarPedidos]
    split
    · exact h
    · split
      · next db1 e hrec =>
        intro m hm
        exact procesaItems_movOk _ its db h m (by rw [hrec]; exact hm)
      · next db1 lineas tot hrec =>
        split
        · intro m hm
          exact procesaItems_movOk _ its db h m (by rw [hrec]; exact hm)
        · intro m hm
          exact procesaItems_movOk _ its db h m (by rw [hrec]; exact hm)
  · intro pid its sus
    simp only [actualizarPedido]
    split
    · exact h
    · exact aplicaStockUpdates_movOk pid _ sus db h
  · intro oid rec
    simp only [eliminarPedido]
    split
    · exact h
    · next pedido hfind =>
      by_cases hrec : rec = true
      · subst hrec
        rw [if_pos rfl]
        exact h
      · rw [if_neg (by simpa using hrec)]
        exact restauraItems_movOk oid _ pedido.items db h

/-- Concrete state for the C10 witness: one product and one open order. -/
def dbC10 : DB := ⟨[⟨1, "A", 20, 5⟩], [], [],
  [⟨"9", "u", none, [⟨1, "A", 2, 20, 40⟩], 40, none, none, none⟩], []⟩

theorem historial_consistente_witness :
    (∀ m ∈ dbC10.historial, movOk m) ∧
    (∀ m ∈ (guardarPedidos dbC10 [⟨1, 3, none, none⟩] "u" none
      none 0).1.historial, movOk m) :=
  ⟨by decide,
    (historial_consistente dbC10 (by decide)).1 [⟨1, 3, none, none⟩] "u" none none 0⟩

/-! Lemmas about the per-customer queue model. -/

lemma traceK_append (k : Nat) (t1 t2 : List (Nat × Nat)) :
    traceK k (t1 ++ t2) = traceK k t1 ++ traceK k t2 := by
  unfold traceK
  rw [List.filter_append, List.map_append]

lemma phiQ_cons (t : QTask) (rest : List QTask) :
    phiQ (t :: rest) = (t.len + 1) + phiQ rest := by
  simp [phiQ]

lemma phiQ_eq_zero (ts : List QTask) (h : phiQ ts = 0) : ts = [] := by
  cases ts with
  | nil => rfl
  | cons t rest =>
    rw [phiQ_cons] at h
    omega

lemma fullEmits_cons (t : QTask) (rest : List QTask) :
    fullEmits (t :: rest) = List.replicate t.len t.tid ++ fullEmits rest := by
  simp [fullEmits]

lemma stepQueue_nil (s : Qstate) (c : Nat) (hq : s c = []) :
    stepQueue s c = (s, none) := by
  unfold stepQueue
  rw [hq]

lemma stepQueue_pop (s : Qstate) (c : Nat) (t : QTask) (rest : List QTask)
    (hq : s c = t :: rest) (hlen : t.len = 0) :
    stepQueue s c = ((fun j => if j = c then rest else s j), none) := by
  unfold stepQueue
  rw [hq]
  exact if_pos hlen

lemma stepQueue_emit (s : Qstate) (c : Nat) (t : QTask) (rest : List QTask)
    (hq : s c = t :: rest) (hlen : ¬ t.len = 0) :
    stepQueue s c =
      ((fun j => if j = c then ⟨t.tid, t.len - 1, t.fails⟩ :: rest else s j),
        some (c, t.tid)) := by
  unfold stepQueue
  rw [hq]
  exact if_neg hlen

lemma stepQueue_other (s : Qstate) (c k : Nat) (hck : c ≠ k) :
    (stepQueue s c).1 k = s k := by
  cases hq : s c with
  | nil => rw [stepQueue_nil s c hq]
  | cons t rest =>
    by_cases hlen : t.len = 0
    · rw [stepQueue_pop s c t rest hq hlen]
      exact if_neg (Ne.symm hck)
    · rw [stepQueue_emit s c t rest hq hlen]
      exact if_neg (Ne.symm hck)

lemma stepQueue_trace_other (s : Qstate) (c k : Nat) (hck : c ≠ k) :
    traceK k (stepQueue s c).2.toList = [] := by
  cases hq : s c with
  | nil => rw [stepQueue_nil s c hq]; rfl
  | cons t rest =>
    by_cases hlen : t.len = 0
    · rw [stepQueue_pop s c t rest hq hlen]
      rfl
    · rw [stepQueue_emit s c t rest hq hlen]
      show traceK k [(c, t.tid)] = []
      have hbeq : ((c, t.tid).1 == k) = false := by simpa using hck
      simp [traceK, hbeq]

lemma runQueue_traceK (k : Nat) :
    ∀ (sched : List Nat) (s : Qstate),
    traceK k (runQueue s sched).2 ++ fullEmits ((runQueue s sched).1 k) =
      fullEmits (s k) := by
  intro sched
  induction sched with
  | nil => intro s; rfl
  | cons c cs ih =>
    intro s
    simp only [runQueue]
    rw [traceK_append, List.append_assoc]
    by_cases hck : c = k
    · subst hck
      cases hq : s c with
      | nil =>
        rw [stepQueue_nil s c hq]
        have key : traceK c ([] : List (Nat × Nat)) ++
            (traceK c (runQueue s cs).2 ++ fullEmits ((runQueue s cs).1 c)) =
            fullEmits ([] : List QTask) := by
          rw [ih s, hq]
          rfl
        exact key
      | cons t rest =>
        by_cases hlen : t.len = 0
        · rw [stepQueue_pop s c t rest hq hlen]
          have key : traceK c ([] : List (Nat × Nat)) ++
              (traceK c (runQueue (fun j => if j = c then rest else s j) cs).2 ++
                fullEmits ((runQueue (fun j => if j = c then rest else s j) cs).1 c)) =
              fullEmits (t :: rest) := by
            have hthis := ih (fun j => if j = c then rest else s j)
            rw [if_pos rfl] at hthis
            rw [hthis, fullEmits_cons, hlen]
            rfl
          exact key
        · rw [stepQueue_emit s c t rest hq hlen]
          have key : traceK c [(c, t.tid)] ++
              (traceK c (runQueue
                  (fun j => if j = c then ⟨t.tid, t.len - 1, t.fails⟩ :: rest else s j)
                  cs).2 ++
                fullEmits ((runQueue
                  (fun j => if j = c then ⟨t.tid, t.len - 1, t.fails⟩ :: rest else s j)
                  cs).1 c)) =
              fullEmits (t :: rest) := by
            have hthis := ih
              (fun j => if j = c then ⟨t.tid, t.len - 1, t.fails⟩ :: rest else s j)
            rw [if_pos rfl] at hthis
            have htr : traceK c [(c, t.tid)] = [t.tid] := by simp [traceK]
            rw [htr, hthis, fullEmits_cons, fullEmits_cons]
            show [t.tid] ++ (List.replicate (t.len - 1) t.tid ++ fullEmits rest) =
              List.replicate t.len t.tid ++ fullEmits rest
            have hsucc : t.len - 1 + 1 = t.len := by omega
            rw [List.singleton_append, ← List.cons_append, ← List.replicate_succ, hsucc]
          exact key
    · rw [stepQueue_trace_other s c k hck, List.nil_append]
      have hthis := ih (stepQueue s c).1
      rw [stepQueue_other s c k hck] at hthis
      exact hthis

lemma runQueue_phi (k : Nat) :
    ∀ (sched : List Nat) (s : Qstate),
    phiQ ((runQueue s sched).1 k) ≤ phiQ (s k) - sched.count k := by
  intro sched
  induction sched with
  | nil => intro s; simp [runQueue]
  | cons c cs ih =>
    intro s
    simp only [runQueue]
    by_cases hck : c = k
    · subst hck
      rw [List.count_cons_self]
      cases hq : s c with
      | nil =>
        rw [stepQueue_nil s c hq]
        have hthis := ih s
        rw [hq] at hthis
        show phiQ ((runQueue s cs).1 c) ≤ phiQ ([] : List QTask) - (cs.count c + 1)
        have hz : phiQ ([] : List QTask) = 0 := rfl
        omega
      | cons t rest =>
        by_cases hlen : t.len = 0
        · rw [stepQueue_pop s c t rest hq hlen]
          have hthis := ih (fun j => if j = c then rest else s j)
          rw [if_pos rfl] at hthis
          show phiQ ((runQueue (fun j => if j = c then rest else s j) cs).1 c) ≤
            phiQ (t :: rest) - (cs.count c + 1)
          rw [phiQ_cons, hlen]
          omega
        · rw [stepQueue_emit s c t rest hq hlen]
          have hthis := ih
            (fun j => if j = c then ⟨t.tid, t.len - 1, t.fails⟩ :: rest else s j)
          rw [if_pos rfl] at hthis
          rw [phiQ_cons] at hthis
          show phiQ ((runQueue
              (fun j => if j = c then ⟨t.tid, t.len - 1, t.fails⟩ :: rest else s j)
              cs).1 c) ≤ phiQ (t :: rest) - (cs.count c + 1)
          rw [phiQ_cons]
          show _ ≤ t.len + 1 + phiQ rest - (cs.count c + 1)
          have hdec : (⟨t.tid, t.len - 1, t.fails⟩ : QTask).len = t.len - 1 := rfl
          rw [hdec] at hthis
          omega
    · rw [List.count_cons_of_ne (Ne.symm hck)]
      have hthis := ih (stepQueue s c).1
      rw [stepQueue_other s c k hck] at hthis
      exact hthis

lemma append_eq_replicate_single (c : Nat) :
    ∀ (tr rest : List Nat) (n : Nat), tr ++ rest = List.replicate n c →
    ∃ m ≤ n, tr = List.replicate m c := by
  intro tr
  induction tr with
  | nil => intro rest n _; exact ⟨0, Nat.zero_le n, rfl⟩
  | cons x t ih =>
    intro rest n h
    cases n with
    | zero => exact absurd h (by simp)
    | succ n' =>
      rw [List.replicate_succ] at h
      rw [List.cons_append] at h
      obtain ⟨hx, ht⟩ := List.cons.inj h
      obtain ⟨m, hm, he⟩ := ih rest n' ht
      exact ⟨m + 1, Nat.succ_le_succ hm, by rw [List.replicate_succ, hx, he]⟩

lemma append_eq_repl_two (a b : Nat) :
    ∀ (tr : List Nat) (lA : Nat) (rest : List Nat) (lB : Nat),
    tr ++ rest = List.replicate lA a ++ List.replicate lB b →
    ∃ n m, tr = List.replicate n a ++ List.replicate m b ∧ n ≤ lA ∧ m ≤ lB ∧
      (0 < m → n = lA) := by
  intro tr
  induction tr with
  | nil =>
    intro lA rest lB _
    exact ⟨0, 0, rfl, Nat.zero_le _, Nat.zero_le _, by omega⟩
  | cons x t ih =>
    intro lA rest lB h
    cases lA with
    | zero =>
      rw [List.replicate_zero, List.nil_append] at h
      obtain ⟨m, hm, he⟩ := append_eq_replicate_single b (x :: t) rest lB h
      refine ⟨0, m, ?_, Nat.le_refl 0, hm, fun _ => rfl⟩
      rw [List.replicate_zero, List.nil_append, he]
    | succ l =>
      rw [List.replicate_succ, List.cons_append, List.cons_append] at h
      obtain ⟨hx, ht⟩ := List.cons.inj h
      obtain ⟨n, m, he, hn, hm, himp⟩ := ih l rest lB ht
      refine ⟨n + 1, m, ?_, Nat.succ_le_succ hn, hm, fun hm0 => by rw [himp hm0]⟩
      rw [List.replicate_succ, List.cons_append, hx, he]

/-- Two chains that interleave under the schedule 1, 2, 1, 2. -/
def interQ : Qstate :=
  fun j => if j = 1 then [⟨10, 2, false⟩] else if j = 2 then [⟨20, 2, false⟩] else []

/-- C9: with tasks A then B queued on the same key, under every schedule
(whatever order the pending calls resolve in) the emitted events of that
key are a block of A-events followed by a block of B-events — B never
begins before A has settled — and a long enough schedule for that key
runs both tasks to completion, whether or not A fails (the `fails` flag
is absorbed by the catch and never blocks B).  Tasks on different keys
are free to interleave, as the explicit 1, 2, 1, 2 schedule shows. -/
theorem runInQueue_orden (A B : QTask) (k : Nat) (s0 : Qstate) (sched : List Nat)
    (hq : s0 k = [A, B]) (_hab : A.tid ≠ B.tid) :
    (∃ n m, traceK k (runQueue s0 sched).2 =
        List.replicate n A.tid ++ List.replicate m B.tid ∧
      n ≤ A.len ∧ m ≤ B.len ∧ (0 < m → n = A.len)) ∧
    (A.len + B.len + 2 ≤ sched.count k →
      traceK k (runQueue s0 sched).2 =
        List.replicate A.len A.tid ++ List.replicate B.len B.tid) ∧
    (runQueue interQ [1, 2, 1, 2]).2 = [(1, 10), (2, 20), (1, 10), (2, 20)] := by
  have hfull : fullEmits (s0 k) =
      List.replicate A.len A.tid ++ List.replicate B.len B.tid := by
    rw [hq, fullEmits_cons, fullEmits_cons]
    simp [fullEmits]
  have hinv := runQueue_traceK k sched s0
  rw [hfull] at hinv
  refine ⟨?_, ?_, ?_⟩
  · exact append_eq_repl_two A.tid B.tid _ A.len _ B.len hinv
  · intro hcount
    have hphi := runQueue_phi k sched s0
    have hphi0 : phiQ (s0 k) = A.len + B.len + 2 := by
      rw [hq, phiQ_cons, phiQ_cons]
      show A.len + 1 + (B.len + 1 + phiQ []) = _
      have hz : phiQ ([] : List QTask) = 0 := rfl
      omega
    have hz : phiQ ((runQueue s0 sched).1 k) = 0 := by omega
    have hemp : (runQueue s0 sched).1 k = [] := phiQ_eq_zero _ hz
    rw [hemp] at hinv
    have hnil : fullEmits ([] : List QTask) = [] := rfl
    rw [hnil, List.append_nil] at hinv
    exact hinv
  · decide

/-- One chain with a failing first task, run to completion. -/
def serialQ : Qstate :=
  fun j => if j = 5 then [⟨10, 2, true⟩, ⟨20, 1, false⟩] else []

theorem runInQueue_orden_witness :
    (serialQ 5 = [⟨10, 2, true⟩, ⟨20, 1, false⟩] ∧ (10 : Nat) ≠ 20) ∧
    ((∃ n m, traceK 5 (runQueue serialQ [5, 5, 5, 5, 5]).2 =
        List.replicate n 10 ++ List.replicate m 20 ∧
      n ≤ 2 ∧ m ≤ 1 ∧ (0 < m → n = 2)) ∧
    (2 + 1 + 2 ≤ ([5, 5, 5, 5, 5] : List Nat).count 5 →
      traceK 5 (runQueue serialQ [5, 5, 5, 5, 5]).2 =
        List.replicate 2 10 ++ List.replicate 1 20) ∧
    (runQueue interQ [1, 2, 1, 2]).2 = [(1, 10), (2, 20), (1, 10), (2, 20)]) :=
  ⟨⟨rfl, by decide⟩,
    runInQueue_orden ⟨10, 2, true⟩ ⟨20, 1, false⟩ 5 serialQ [5, 5, 5, 5, 5]
      rfl (by decide)⟩
